import Mathlib

/-!
Shallow embedding of the reconciliation core of the fluxcd source-controller
(OCIRepository, HelmRepository of type OCI, and HelmChart reconcilers), as
found in src/controllers/helmrepository_controller_oci.go and
src/unnamed/part_000 (the HelmChart controller file).

Go strings are modelled as lists of characters (`Str`), Go machine integers
as `Int`/`Nat` (no overflow is relevant to the verified claims), fallible
Go code as `Option`/`Except`, and external I/O (registry pulls, Kubernetes
API calls, file archiving) as oracle parameters of the embedded functions.
-/

namespace SrcCtl

/-- Go strings, modelled as lists of characters.  All strings handled by the
verified code paths are ASCII, where Go's byte-wise string order coincides
with the character-wise order used here. -/
abbrev Str := List Char

/-- Go `strings.Split(s, c)` for a single-character separator. -/
def splitOnC (c : Char) : Str → List Str
  | [] => [[]]
  | a :: as =>
    let r := splitOnC c as
    if a == c then [] :: r
    else
      match r with
      | [] => [[a]]
      | h :: t => (a :: h) :: t

/-- Go `strings.Contains(s, c)` for a single character. -/
def containsC (c : Char) (s : Str) : Bool := s.any (fun a => a == c)

/-- Go `strings.HasPrefix(s, pat)` (pattern first). -/
def hasPfxC : Str → Str → Bool
  | [], _ => true
  | _ :: _, [] => false
  | a :: as, b :: bs => a == b && hasPfxC as bs

/-- Go `strings.TrimPrefix(s, pat)`: drops `pat` from the front of `s` when
present, otherwise returns `s` unchanged. -/
def trimStart (pat s : Str) : Str := if hasPfxC pat s then s.drop pat.length else s

/-! ## Conditions

Kubernetes status conditions as used through `fluxcd/pkg/runtime/conditions`:
a condition has a type, a boolean status, a reason, and the observed
generation recorded when it was set. -/

/-- One status condition on an object. -/
structure Condition where
  ctype : Str
  cstatus : Bool
  reason : Str
  gen : Int
deriving DecidableEq, Repr

/-- A condition set; at most one condition per type is maintained by
`setCond`. -/
abbrev Conditions := List Condition

/-- `conditions.Set`: replace the condition of the same type. -/
def setCond (cs : Conditions) (c : Condition) : Conditions :=
  c :: cs.filter (fun x => x.ctype ≠ c.ctype)

/-- `conditions.Delete`. -/
def delCond (cs : Conditions) (t : Str) : Conditions :=
  cs.filter (fun x => x.ctype ≠ t)

/-- `conditions.Get`. -/
def getCond (cs : Conditions) (t : Str) : Option Condition :=
  cs.find? (fun x => x.ctype = t)

/-- `conditions.MarkTrue` at the object's generation `g`. -/
def markTrue (cs : Conditions) (t : Str) (r : Str) (g : Int) : Conditions :=
  setCond cs ⟨t, true, r, g⟩

/-- `conditions.MarkFalse` at the object's generation `g`. -/
def markFalse (cs : Conditions) (t : Str) (r : Str) (g : Int) : Conditions :=
  setCond cs ⟨t, false, r, g⟩

/-- `conditions.IsFalse`: the condition is present with status False. -/
def isFalseCond (cs : Conditions) (t : Str) : Bool :=
  match getCond cs t with
  | some c => !c.cstatus
  | none => false

/-- `conditions.Has`. -/
def hasCond (cs : Conditions) (t : Str) : Bool := (getCond cs t).isSome

/-- `conditions.GetObservedGeneration`: 0 when the condition is absent. -/
def getCondObservedGen (cs : Conditions) (t : Str) : Int :=
  match getCond cs t with
  | some c => c.gen
  | none => 0

/-- Condition type names used by the verified code paths. -/
def artifactInStorageCond : Str := "ArtifactInStorage".toList

def fetchFailedCond : Str := "FetchFailed".toList

def sourceVerifiedCond : Str := "SourceVerified".toList

def artifactOutdatedCond : Str := "ArtifactOutdated".toList

def readyCond : Str := "Ready".toList

def authenticationFailedReason : Str := "AuthenticationFailed".toList

def verificationErrorReason : Str := "VerificationError".toList

def newRevisionReason : Str := "NewRevision".toList

def succeededReason : Str := "Succeeded".toList

/-! ## Storage

The content-addressed artifact store.  Its Go implementation (the `Storage`
type) is not part of the sources under verification; per the specification
(§4.1) a file lives at `<root>/<kind>/<namespace>/<name>/<filename>` and the
store is modelled as the list of files present. -/

/-- Identity of one stored artifact file:
`<kind>/<namespace>/<name>/<filename>`. -/
structure FileKey where
  kind : Str
  nspace : Str
  name : Str
  fname : Str
deriving DecidableEq, Repr

/-- The artifact store: the files currently present. -/
abbrev Storage := List FileKey

/-- Identity `(kind, namespace, name)` of a reconciled object. -/
structure ObjMeta where
  kind : Str
  nspace : Str
  name : Str
deriving DecidableEq, Repr

/-- Whether a stored file belongs to the object `m`. -/
def fileOwnedBy (m : ObjMeta) (f : FileKey) : Bool :=
  f.kind == m.kind && f.nspace == m.nspace && f.name == m.name

/-- The artifact files of object `m` present in storage. -/
def filesFor (st : Storage) (m : ObjMeta) : List FileKey :=
  st.filter (fileOwnedBy m)

/-- Modelled from the spec: `Storage.RemoveAll` on the pattern
`NewArtifactFor(kind, meta, "", "*")` removes the object's whole subtree
(spec §4.1: "On deletion the object's whole subtree is removed via
RemoveAll(\x22*\x22)").  The Go implementation of Storage is not under src/. -/
def removeAllForObj (st : Storage) (m : ObjMeta) : Storage :=
  st.filter (fun f => !fileOwnedBy m f)

/-- An artifact as recorded in `status.artifact`: its storage location,
revision, checksum and advertised URL host. -/
structure Artifact where
  path : FileKey
  revision : Str
  checksum : Str
  urlHost : Str
deriving DecidableEq, Repr

/-- Modelled from the spec: `Storage.ArtifactExist` checks that the
artifact's file is present in the store. -/
def artifactExist (st : Storage) (a : Artifact) : Bool := st.contains a.path

/-- `Artifact.HasRevision` of the fluxcd API: false on a nil artifact. -/
def hasRevision (a : Option Artifact) (rev : Str) : Bool :=
  match a with
  | none => false
  | some x => x.revision == rev

/-- The finalizer `sourcev1.SourceFinalizer`. -/
def sourceFinalizer : Str := "finalizers.fluxcd.io".toList

/-! ## Claim C1: the deletion path

`OCIRepositoryReconciler.reconcileDelete` and
`HelmChartReconciler.reconcileDelete` first garbage collect every artifact of
the object (`garbageCollect` with a non-zero deletion timestamp calls
`Storage.RemoveAll` on the object's subtree) and remove the finalizer only
when that succeeded; on a garbage-collection error they return early with
the finalizer still in place.  `HelmRepositoryOCIReconciler.reconcileDelete`
removes the finalizer without touching storage — that reconciler never
stores artifacts for its objects. -/

/-- Abstract result of a (sub)reconciliation, `internal/reconcile.Result`. -/
inductive RResult where
  | empty
  | success
  | requeue
deriving DecidableEq, Repr

/-- State touched by the delete path of a reconciler. -/
structure DeleteState where
  storage : Storage
  finalizers : List Str
  statusArtifact : Option Artifact
deriving DecidableEq, Repr

/-- Outcome of a delete-path reconciliation: the new state and whether an
error was returned (causing a retry). -/
structure DeleteOutcome where
  state : DeleteState
  errored : Bool
deriving DecidableEq, Repr

/-- `garbageCollect` on an object under deletion
(helmrepository_controller_oci.go lines 1515–1528 and part_000 lines
969–982): `Storage.RemoveAll` of the object's subtree; on an I/O failure
(oracle `removeAllFails`) the error is returned; on success
`status.artifact` is cleared. -/
def garbageCollectDeleting (m : ObjMeta) (removeAllFails : Bool)
    (s : DeleteState) : Except Unit DeleteState :=
  if removeAllFails then Except.error ()
  else Except.ok { s with storage := removeAllForObj s.storage m, statusArtifact := none }

/-- `OCIRepositoryReconciler.reconcileDelete` (lines 1496–1508): garbage
collect all artifacts; on failure return the error (finalizer kept),
otherwise remove the finalizer. -/
def ociReconcileDelete (m : ObjMeta) (removeAllFails : Bool)
    (s : DeleteState) : DeleteOutcome :=
  match garbageCollectDeleting m removeAllFails s with
  | Except.error _ => ⟨s, true⟩
  | Except.ok s1 =>
    ⟨{ s1 with finalizers := s1.finalizers.filter (fun f => f ≠ sourceFinalizer) }, false⟩

/-- `HelmChartReconciler.reconcileDelete` (part_000 lines 950–962): same
structure as the OCIRepository delete path. -/
def helmChartReconcileDelete (m : ObjMeta) (removeAllFails : Bool)
    (s : DeleteState) : DeleteOutcome :=
  match garbageCollectDeleting m removeAllFails s with
  | Except.error _ => ⟨s, true⟩
  | Except.ok s1 =>
    ⟨{ s1 with finalizers := s1.finalizers.filter (fun f => f ≠ sourceFinalizer) }, false⟩

/-- `HelmRepositoryOCIReconciler.reconcileDelete` (lines 372–378): removes
the finalizer; storage is not touched (this reconciler stores no
artifacts). -/
def helmRepoOCIReconcileDelete (s : DeleteState) : DeleteOutcome :=
  ⟨{ s with finalizers := s.finalizers.filter (fun f => f ≠ sourceFinalizer) }, false⟩

theorem filesFor_removeAllForObj (st : Storage) (m : ObjMeta) :
    filesFor (removeAllForObj st m) m = [] := by
  simp only [filesFor, removeAllForObj, List.filter_filter]
  apply List.filter_eq_nil_iff.mpr
  intro f _
  cases h : fileOwnedBy m f <;> simp [h]

theorem filesFor_eq_nil_iff (st : Storage) (m : ObjMeta) :
    filesFor st m = [] ↔ ∀ f ∈ st, fileOwnedBy m f = false := by
  simp only [filesFor, List.filter_eq_nil_iff, Bool.not_eq_true]

theorem mem_filter_remove_finalizer (fs : List Str) :
    sourceFinalizer ∉ fs.filter (fun f => f ≠ sourceFinalizer) := by
  intro h
  have := (List.mem_filter.mp h).2
  simp at this

/-- Claim C1: on the deletion path, all artifacts of the object are removed
from storage before the finalizer is cleared.  For the OCIRepository and
HelmChart reconcilers, whenever `reconcileDelete` returns without error the
finalizer has been removed and no artifact file of the object remains in
storage, and on a garbage-collection error the finalizer is untouched.  The
HelmRepositoryOCI reconciler removes the finalizer without touching storage;
since it never stores artifacts, no artifact file of its object exists in
storage (hypothesis), so none remains afterwards. -/
theorem deletePathRemovesArtifactsBeforeFinalizer
    (m : ObjMeta) (fails : Bool) (s : DeleteState)
    (mHR : ObjMeta) (sHR : DeleteState)
    (hNoHelmRepoFiles : filesFor sHR.storage mHR = []) :
    ((ociReconcileDelete m fails s).errored = false →
      sourceFinalizer ∉ (ociReconcileDelete m fails s).state.finalizers ∧
      filesFor (ociReconcileDelete m fails s).state.storage m = []) ∧
    ((ociReconcileDelete m fails s).errored = true →
      (ociReconcileDelete m fails s).state.finalizers = s.finalizers) ∧
    ((helmChartReconcileDelete m fails s).errored = false →
      sourceFinalizer ∉ (helmChartReconcileDelete m fails s).state.finalizers ∧
      filesFor (helmChartReconcileDelete m fails s).state.storage m = []) ∧
    ((helmChartReconcileDelete m fails s).errored = true →
      (helmChartReconcileDelete m fails s).state.finalizers = s.finalizers) ∧
    (sourceFinalizer ∉ (helmRepoOCIReconcileDelete sHR).state.finalizers ∧
      filesFor (helmRepoOCIReconcileDelete sHR).state.storage mHR = []) := by
  refine ⟨?_, ?_, ?_, ?_, ?_, ?_⟩ <;>
    simp only [ociReconcileDelete, helmChartReconcileDelete, helmRepoOCIReconcileDelete,
      garbageCollectDeleting]
  · cases fails <;> simp [filesFor_removeAllForObj, mem_filter_remove_finalizer]
  · cases fails <;> simp
  · cases fails <;> simp [filesFor_removeAllForObj, mem_filter_remove_finalizer]
  · cases fails <;> simp
  · exact mem_filter_remove_finalizer _
  · exact hNoHelmRepoFiles

/-- Witness for C1 at a concrete state: an OCIRepository object with one
stored artifact file and the finalizer present, garbage collection
succeeding, together with an empty-storage HelmRepository state. -/
theorem deletePathRemovesArtifactsBeforeFinalizer_witness :
    filesFor [] ⟨"HelmRepository".toList, "ns".toList, "repo".toList⟩ = [] ∧
    ((ociReconcileDelete ⟨"OCIRepository".toList, "ns".toList, "app".toList⟩ false
        ⟨[⟨"OCIRepository".toList, "ns".toList, "app".toList, "a.tar.gz".toList⟩],
          [sourceFinalizer], none⟩).errored = false →
      sourceFinalizer ∉ (ociReconcileDelete ⟨"OCIRepository".toList, "ns".toList, "app".toList⟩
          false ⟨[⟨"OCIRepository".toList, "ns".toList, "app".toList, "a.tar.gz".toList⟩],
          [sourceFinalizer], none⟩).state.finalizers ∧
      filesFor (ociReconcileDelete ⟨"OCIRepository".toList, "ns".toList, "app".toList⟩ false
          ⟨[⟨"OCIRepository".toList, "ns".toList, "app".toList, "a.tar.gz".toList⟩],
          [sourceFinalizer], none⟩).state.storage
        ⟨"OCIRepository".toList, "ns".toList, "app".toList⟩ = []) := by
  have h := deletePathRemovesArtifactsBeforeFinalizer
    ⟨"OCIRepository".toList, "ns".toList, "app".toList⟩ false
    ⟨[⟨"OCIRepository".toList, "ns".toList, "app".toList, "a.tar.gz".toList⟩],
      [sourceFinalizer], none⟩
    ⟨"HelmRepository".toList, "ns".toList, "repo".toList⟩ ⟨[], [sourceFinalizer], none⟩
    (by decide)
  exact ⟨by decide, h.1⟩

/-! ## The OCIRepository object and its storage phase -/

/-- `spec.layerSelector` of an OCIRepository. -/
structure LayerSelector where
  mediaType : Str
  operation : Str
deriving DecidableEq, Repr

/-- A URL as host plus the remainder; `none` stands for the empty URL
string. -/
structure UrlV where
  host : Str
  rest : Str
deriving DecidableEq, Repr

def reconcilingCond : Str := "Reconciling".toList

def progressingReason : Str := "Progressing".toList

/-- The reconciled fields of a `v1beta2.OCIRepository` object. -/
structure OCIObj where
  meta : ObjMeta
  generation : Int
  observedGeneration : Int
  suspend : Bool
  specIgnore : Option Str
  specLayerSelector : Option LayerSelector
  specVerify : Bool
  specInsecure : Bool
  artifact : Option Artifact
  statusURL : Option UrlV
  observedIgnore : Option Str
  observedLayerSelector : Option LayerSelector
  conditions : Conditions
deriving DecidableEq, Repr

/-- `layerSelectorEqual` (lines 1676–1684): both nil, or both non-nil and
equal. -/
def layerSelectorEqual (a b : Option LayerSelector) : Bool :=
  match a, b with
  | none, none => true
  | some x, some y => x == y
  | _, _ => false

/-- `pointer.StringEqual`: both nil, or both non-nil and equal. -/
def stringPtrEqual (a b : Option Str) : Bool :=
  match a, b with
  | none, none => true
  | some x, some y => x == y
  | _, _ => false

/-- `ociContentConfigChanged` (lines 1661–1671): the spec's ignore patterns
or layer selector differ from the observations recorded in the status. -/
def ociContentConfigChanged (obj : OCIObj) : Bool :=
  if !stringPtrEqual obj.specIgnore obj.observedIgnore then true
  else if !layerSelectorEqual obj.specLayerSelector obj.observedLayerSelector then true
  else false

/-- Modelled from the spec: `Storage.SetHostname` rewrites the host of a URL
to the storage server's hostname (spec §4.1; the Storage implementation is
not under src/). -/
def setHostname (host : Str) (u : Option UrlV) : Option UrlV :=
  u.map (fun v => { v with host := host })

/-- Modelled from the spec: `Storage.SetArtifactURL` points the artifact's
URL at the current storage hostname. -/
def setArtifactURL (host : Str) (a : Artifact) : Artifact :=
  { a with urlHost := host }

/-- Modelled from the spec: `Storage.GarbageCollect` for a live object
"retains the current advertised artifact and all artifacts whose age < TTL
and index position ≤ MaxFiles" (spec §4.1); the TTL/MaxFiles survivors are
given by the oracle `keep`. -/
def garbageCollectLive (st : Storage) (cur : Option Artifact)
    (keep : FileKey → Bool) : Storage :=
  st.filter (fun f =>
    (match cur with
     | some a => f == a.path
     | none => false) || keep f)

/-- Outcome of the storage phase. -/
structure StorageOutcome where
  obj : OCIObj
  storage : Storage
  result : RResult
  errored : Bool
deriving Repr

/-- `OCIRepositoryReconciler.reconcileStorage` (lines 1335–1369), identical
in structure to `HelmChartReconciler.reconcileStorage` (part_000 lines
365–399): garbage collect, drop the advertised artifact when its file
disappeared from storage (clearing `status.url` and the ArtifactInStorage
condition), mark progress when no artifact is advertised, and otherwise
refresh the artifact and status URLs to the current storage hostname.
`patchFails` is the oracle for the serial patcher call. -/
def reconcileStorage (host : Str) (keep : FileKey → Bool) (patchFails : Bool)
    (st : Storage) (obj : OCIObj) : StorageOutcome :=
  let st1 := garbageCollectLive st obj.artifact keep
  let obj1 :=
    match obj.artifact with
    | some a =>
      if artifactExist st1 a then obj
      else
        { obj with
          artifact := none
          statusURL := none
          conditions := delCond obj.conditions artifactInStorageCond }
    | none => obj
  match obj1.artifact with
  | none =>
    let cs2 :=
      delCond (markTrue obj1.conditions reconcilingCond progressingReason obj1.generation)
        artifactInStorageCond
    let obj2 := { obj1 with conditions := cs2 }
    if patchFails then ⟨obj2, st1, RResult.empty, true⟩
    else ⟨obj2, st1, RResult.success, false⟩
  | some a =>
    ⟨{ obj1 with
       artifact := some (setArtifactURL host a)
       statusURL := setHostname host obj1.statusURL }, st1, RResult.success, false⟩

theorem getCond_delCond (cs : Conditions) (t : Str) :
    getCond (delCond cs t) t = none := by
  simp only [getCond, delCond]
  apply List.find?_eq_none.mpr
  intro x hx
  have := (List.mem_filter.mp hx).2
  simpa using this

theorem mem_garbageCollectLive_of_mem (st : Storage) (cur : Option Artifact)
    (keep : FileKey → Bool) (f : FileKey) (h : f ∈ garbageCollectLive st cur keep) :
    f ∈ st :=
  (List.mem_filter.mp h).1

theorem path_mem_garbageCollectLive (st : Storage) (a : Artifact)
    (keep : FileKey → Bool) (h : a.path ∈ st) :
    a.path ∈ garbageCollectLive st (some a) keep := by
  apply List.mem_filter.mpr
  exact ⟨h, by simp⟩

/-- Claim C2: the storage phase self-heals a vanished artifact.  If
`status.artifact` is set but its file is gone from storage, the phase clears
`status.artifact` and `status.url` and removes the ArtifactInStorage
condition; if the file is present, the artifact is kept (same path,
revision and checksum) with its URL, and the status URL, rewritten to the
current storage hostname. -/
theorem reconcileStorageSelfHeals (host : Str) (keep : FileKey → Bool)
    (patchFails : Bool) (st : Storage) (obj : OCIObj) (a : Artifact)
    (hart : obj.artifact = some a) :
    (a.path ∉ st →
      (reconcileStorage host keep patchFails st obj).obj.artifact = none ∧
      (reconcileStorage host keep patchFails st obj).obj.statusURL = none ∧
      hasCond (reconcileStorage host keep patchFails st obj).obj.conditions
        artifactInStorageCond = false) ∧
    (a.path ∈ st →
      (reconcileStorage host keep patchFails st obj).obj.artifact =
        some (setArtifactURL host a) ∧
      (setArtifactURL host a).path = a.path ∧
      (setArtifactURL host a).revision = a.revision ∧
      (setArtifactURL host a).checksum = a.checksum ∧
      (setArtifactURL host a).urlHost = host ∧
      (reconcileStorage host keep patchFails st obj).obj.statusURL =
        setHostname host obj.statusURL) := by
  constructor
  · intro hmem
    have hnotin : a.path ∉ garbageCollectLive st (some a) keep := fun hc =>
      hmem (mem_garbageCollectLive_of_mem _ _ _ _ hc)
    have hexist : artifactExist (garbageCollectLive st (some a) keep) a = false := by
      simp only [artifactExist]
      simpa using hnotin
    cases patchFails <;>
      simp [reconcileStorage, hart, hexist, hasCond, getCond_delCond]
  · intro hmem
    have hin : a.path ∈ garbageCollectLive st (some a) keep :=
      path_mem_garbageCollectLive st a keep hmem
    have hexist : artifactExist (garbageCollectLive st (some a) keep) a = true := by
      simp only [artifactExist]
      simpa using hin
    simp [reconcileStorage, hart, hexist, setArtifactURL]

/-- Witness for C2 at a concrete object whose artifact file is absent from
an empty storage. -/
theorem reconcileStorageSelfHeals_witness :
    ({ meta := ⟨"OCIRepository".toList, "ns".toList, "app".toList⟩,
       generation := 1, observedGeneration := 1, suspend := false,
       specIgnore := none, specLayerSelector := none, specVerify := false,
       specInsecure := false,
       artifact := some ⟨⟨"OCIRepository".toList, "ns".toList, "app".toList,
         "d.tar.gz".toList⟩, "rev".toList, "sum".toList, "h0".toList⟩,
       statusURL := some ⟨"h0".toList, "/x".toList⟩,
       observedIgnore := none, observedLayerSelector := none,
       conditions := [⟨artifactInStorageCond, true, succeededReason, 1⟩] } : OCIObj).artifact
      = some ⟨⟨"OCIRepository".toList, "ns".toList, "app".toList, "d.tar.gz".toList⟩,
          "rev".toList, "sum".toList, "h0".toList⟩ ∧
    ((⟨⟨"OCIRepository".toList, "ns".toList, "app".toList, "d.tar.gz".toList⟩,
        "rev".toList, "sum".toList, "h0".toList⟩ : Artifact).path ∉ ([] : Storage) →
      (reconcileStorage "h1".toList (fun _ => true) false []
        { meta := ⟨"OCIRepository".toList, "ns".toList, "app".toList⟩,
          generation := 1, observedGeneration := 1, suspend := false,
          specIgnore := none, specLayerSelector := none, specVerify := false,
          specInsecure := false,
          artifact := some ⟨⟨"OCIRepository".toList, "ns".toList, "app".toList,
            "d.tar.gz".toList⟩, "rev".toList, "sum".toList, "h0".toList⟩,
          statusURL := some ⟨"h0".toList, "/x".toList⟩,
          observedIgnore := none, observedLayerSelector := none,
          conditions := [⟨artifactInStorageCond, true, succeededReason, 1⟩] }).obj.artifact
        = none ∧
      (reconcileStorage "h1".toList (fun _ => true) false []
        { meta := ⟨"OCIRepository".toList, "ns".toList, "app".toList⟩,
          generation := 1, observedGeneration := 1, suspend := false,
          specIgnore := none, specLayerSelector := none, specVerify := false,
          specInsecure := false,
          artifact := some ⟨⟨"OCIRepository".toList, "ns".toList, "app".toList,
            "d.tar.gz".toList⟩, "rev".toList, "sum".toList, "h0".toList⟩,
          statusURL := some ⟨"h0".toList, "/x".toList⟩,
          observedIgnore := none, observedLayerSelector := none,
          conditions := [⟨artifactInStorageCond, true, succeededReason, 1⟩] }).obj.statusURL
        = none ∧
      hasCond (reconcileStorage "h1".toList (fun _ => true) false []
        { meta := ⟨"OCIRepository".toList, "ns".toList, "app".toList⟩,
          generation := 1, observedGeneration := 1, suspend := false,
          specIgnore := none, specLayerSelector := none, specVerify := false,
          specInsecure := false,
          artifact := some ⟨⟨"OCIRepository".toList, "ns".toList, "app".toList,
            "d.tar.gz".toList⟩, "rev".toList, "sum".toList, "h0".toList⟩,
          statusURL := some ⟨"h0".toList, "/x".toList⟩,
          observedIgnore := none, observedLayerSelector := none,
          conditions := [⟨artifactInStorageCond, true, succeededReason, 1⟩] }).obj.conditions
        artifactInStorageCond = false) := by
  refine ⟨rfl, ?_⟩
  exact (reconcileStorageSelfHeals "h1".toList (fun _ => true) false [] _ _ rfl).1

/-! ## Claim C9: the top-level dispatch and suspend

All three Reconcile entry points share the same dispatch after fetching the
object: add the finalizer and requeue when it is absent; run the delete path
when the deletion timestamp is set; return untouched when `spec.suspend` is
true; otherwise run the storage/source/artifact phases
(helmrepository_controller_oci.go lines 162–190 and 645–672, part_000 lines
237–266). -/

/-- Which branch of the top-level dispatch was taken. -/
inductive DispatchAction where
  | requeueAddFinalizer
  | deleted
  | suspended
  | ranPhases
deriving DecidableEq, Repr

/-- Result of the top-level dispatch: the branch taken and the object state
it produced. -/
structure ReconcileDispatch (σ : Type) where
  action : DispatchAction
  status : σ

/-- The common top-level dispatch of the three Reconcile methods, over an
abstract object state `σ`: `addFinalizer`, `runDelete` and `runPhases` are
the respective branch bodies.  On `spec.suspend` the method logs and returns
with the object untouched. -/
def reconcileTopDispatch {σ : Type} (hasFinalizer deleting suspend : Bool)
    (addFinalizer runDelete runPhases : σ → σ) (status : σ) : ReconcileDispatch σ :=
  if !hasFinalizer then ⟨DispatchAction.requeueAddFinalizer, addFinalizer status⟩
  else if deleting then ⟨DispatchAction.deleted, runDelete status⟩
  else if suspend then ⟨DispatchAction.suspended, status⟩
  else ⟨DispatchAction.ranPhases, runPhases status⟩

/-- Claim C9: with `spec.suspend = true` (finalizer present, not under
deletion) the reconciler executes no phase beyond the fetch/finalizer step —
for every possible phase body the dispatch takes the `suspended` branch and
never applies `runPhases`, `runDelete` or `addFinalizer` — and the object's
status is returned unmodified. -/
theorem suspendHaltsReconciliation {σ : Type}
    (addFinalizer runDelete runPhases : σ → σ) (status : σ) :
    (reconcileTopDispatch true false true addFinalizer runDelete runPhases status).action =
      DispatchAction.suspended ∧
    (reconcileTopDispatch true false true addFinalizer runDelete runPhases status).status =
      status := by
  constructor <;> rfl

/-! ## Claim C7: the cloud-OIDC "Unconfigured provider" fallthrough

Three sites guard `oidcAuth` identically: an error that is
`oci.ErrUnconfiguredProvider` is swallowed and the flow continues with a nil
authenticator (anonymous access); any other error marks a failure condition
with reason AuthenticationFailed and aborts the run
(helmrepository_controller_oci.go lines 305–316 and 777–788, part_000 lines
548–561). -/

/-- Result of `oidcAuth` (authenticator, error). -/
inductive OIDCAuthResult where
  | ok
  | errUnconfiguredProvider
  | errOther (msg : Str)
deriving DecidableEq, Repr

/-- Outcome of the cloud-OIDC credential step at one call site. -/
structure AuthStepOutcome where
  conditions : Conditions
  authSet : Bool
  failed : Bool
  reason : Str
deriving DecidableEq, Repr

/-- `OCIRepositoryReconciler.reconcileSource` lines 777–788 (reached when
the keychain is anonymous and `spec.provider ≠ generic`): a non-unconfigured
error marks FetchFailed with reason AuthenticationFailed and returns it. -/
def ociSourceOIDCAuthStep (cs : Conditions) (gen : Int)
    (res : OIDCAuthResult) : AuthStepOutcome :=
  match res with
  | OIDCAuthResult.ok => ⟨cs, true, false, []⟩
  | OIDCAuthResult.errUnconfiguredProvider => ⟨cs, false, false, []⟩
  | OIDCAuthResult.errOther _ =>
    ⟨markTrue cs fetchFailedCond authenticationFailedReason gen, false, true,
      authenticationFailedReason⟩

/-- `HelmRepositoryOCIReconciler.reconcile` lines 305–316: a
non-unconfigured error marks Ready=False with reason AuthenticationFailed
and returns it. -/
def helmRepoOCIOIDCAuthStep (cs : Conditions) (gen : Int)
    (res : OIDCAuthResult) : AuthStepOutcome :=
  match res with
  | OIDCAuthResult.ok => ⟨cs, true, false, []⟩
  | OIDCAuthResult.errUnconfiguredProvider => ⟨cs, false, false, []⟩
  | OIDCAuthResult.errOther _ =>
    ⟨markFalse cs readyCond authenticationFailedReason gen, false, true,
      authenticationFailedReason⟩

/-- `HelmChartReconciler.buildFromHelmRepository` part_000 lines 548–561:
a non-unconfigured error marks FetchFailed with reason AuthenticationFailed
and returns it. -/
def helmChartOIDCAuthStep (cs : Conditions) (gen : Int)
    (res : OIDCAuthResult) : AuthStepOutcome :=
  match res with
  | OIDCAuthResult.ok => ⟨cs, true, false, []⟩
  | OIDCAuthResult.errUnconfiguredProvider => ⟨cs, false, false, []⟩
  | OIDCAuthResult.errOther _ =>
    ⟨markTrue cs fetchFailedCond authenticationFailedReason gen, false, true,
      authenticationFailedReason⟩

theorem getCond_setCond_self (cs : Conditions) (c : Condition) :
    getCond (setCond cs c) c.ctype = some c := by
  simp [getCond, setCond]

/-- Claim C7: at all three call sites, an "Unconfigured provider" error from
the cloud-OIDC path is not fatal: the run continues with no authenticator
(anonymous access) and no condition is touched; every other cloud-auth
error aborts the run and records a condition with reason
AuthenticationFailed. -/
theorem unconfiguredProviderFallsThroughToAnonymous
    (cs : Conditions) (gen : Int) (msg : Str) :
    (ociSourceOIDCAuthStep cs gen OIDCAuthResult.errUnconfiguredProvider =
      ⟨cs, false, false, []⟩) ∧
    (helmRepoOCIOIDCAuthStep cs gen OIDCAuthResult.errUnconfiguredProvider =
      ⟨cs, false, false, []⟩) ∧
    (helmChartOIDCAuthStep cs gen OIDCAuthResult.errUnconfiguredProvider =
      ⟨cs, false, false, []⟩) ∧
    ((ociSourceOIDCAuthStep cs gen (OIDCAuthResult.errOther msg)).failed = true ∧
      getCond (ociSourceOIDCAuthStep cs gen (OIDCAuthResult.errOther msg)).conditions
        fetchFailedCond = some ⟨fetchFailedCond, true, authenticationFailedReason, gen⟩) ∧
    ((helmRepoOCIOIDCAuthStep cs gen (OIDCAuthResult.errOther msg)).failed = true ∧
      getCond (helmRepoOCIOIDCAuthStep cs gen (OIDCAuthResult.errOther msg)).conditions
        readyCond = some ⟨readyCond, false, authenticationFailedReason, gen⟩) ∧
    ((helmChartOIDCAuthStep cs gen (OIDCAuthResult.errOther msg)).failed = true ∧
      getCond (helmChartOIDCAuthStep cs gen (OIDCAuthResult.errOther msg)).conditions
        fetchFailedCond = some ⟨fetchFailedCond, true, authenticationFailedReason, gen⟩) := by
  refine ⟨rfl, rfl, rfl, ⟨rfl, ?_⟩, ⟨rfl, ?_⟩, ⟨rfl, ?_⟩⟩ <;>
    exact getCond_setCond_self cs _

/-! ## Claim C10: the 12-character revision slice in the tarball build path -/

/-- The kinds a HelmChart `spec.sourceRef` may name. -/
inductive SourceKind where
  | helmRepository
  | gitRepository
  | bucket
deriving DecidableEq, Repr

/-- `spec.reconcileStrategy` of a HelmChart. -/
inductive ReconcileStrategy where
  | chartVersion
  | revision
deriving DecidableEq, Repr

/-- Go string slicing `s[lo:hi]`: defined only when `lo ≤ hi ≤ len(s)`,
otherwise the program panics (`none`). -/
def goStringSlice (s : Str) (lo hi : Nat) : Option Str :=
  if lo ≤ hi ∧ hi ≤ s.length then some ((s.take hi).drop lo) else none

/-- The version-metadata fragment of
`HelmChartReconciler.buildFromTarballArtifact` (part_000 lines 784–807):
when the reconcile strategy is Revision, start from the source revision,
for a GitRepository take the segment after the last `/`, and for a
GitRepository or Bucket slice `rev[0:12]` — with no length guard, so a
shorter revision panics (`none`).  The returned string is
`opts.VersionMetadata` (empty when the strategy is ChartVersion). -/
def tarballVersionMetadata (strategy : ReconcileStrategy) (kind : SourceKind)
    (revision : Str) : Option Str :=
  if strategy = ReconcileStrategy.revision then
    let rev :=
      if kind = SourceKind.gitRepository then (splitOnC '/' revision).getLastD []
      else revision
    if kind = SourceKind.gitRepository ∨ kind = SourceKind.bucket then
      goStringSlice rev 0 12
    else some rev
  else some []

/-- Claim C10: with strategy Revision and a GitRepository or Bucket source,
the version metadata is unconditionally the first 12 characters of the
revision (for Git, of the segment after the last `/`); the computation is
total exactly when that string has at least 12 characters, and panics
(`none`) for any shorter revision. -/
theorem tarballVersionMetadataSliceTotality (revision : Str) :
    (12 ≤ ((splitOnC '/' revision).getLastD []).length →
      tarballVersionMetadata ReconcileStrategy.revision SourceKind.gitRepository revision =
        some (((splitOnC '/' revision).getLastD []).take 12)) ∧
    (((splitOnC '/' revision).getLastD []).length < 12 →
      tarballVersionMetadata ReconcileStrategy.revision SourceKind.gitRepository revision =
        none) ∧
    (12 ≤ revision.length →
      tarballVersionMetadata ReconcileStrategy.revision SourceKind.bucket revision =
        some (revision.take 12)) ∧
    (revision.length < 12 →
      tarballVersionMetadata ReconcileStrategy.revision SourceKind.bucket revision =
        none) := by
  refine ⟨?_, ?_, ?_, ?_⟩ <;> intro h <;>
    simp [tarballVersionMetadata, goStringSlice, h, Nat.not_le_of_lt, List.drop_zero,
      List.getLastD_eq_getLast?] at h ⊢
  · omega
  · omega

/-- Witness for C10: a Git revision `main/sha1sha1sha1sha1` (segment of 16
characters) is sliced to 12, while the shorter `main/abc` panics. -/
theorem tarballVersionMetadataSliceTotality_witness :
    (12 ≤ ((splitOnC '/' "main/0123456789abcdef".toList).getLastD []).length ∧
      tarballVersionMetadata ReconcileStrategy.revision SourceKind.gitRepository
        "main/0123456789abcdef".toList = some "0123456789ab".toList) ∧
    (((splitOnC '/' "main/abc".toList).getLastD []).length < 12 ∧
      tarballVersionMetadata ReconcileStrategy.revision SourceKind.gitRepository
        "main/abc".toList = none) := by
  refine ⟨⟨by decide, ?_⟩, ⟨by decide, ?_⟩⟩
  · have h := (tarballVersionMetadataSliceTotality "main/0123456789abcdef".toList).1
      (by decide)
    exact h.trans (by decide)
  · exact (tarballVersionMetadataSliceTotality "main/abc".toList).2.1 (by decide)

/-! ## The OCIRepository source, artifact and notify phases

`OCIRepositoryReconciler.reconcileSource` (lines 751–969) after the
credential/transport steps (whose failure paths are modelled separately for
claim C7) and a successful `getArtifactURL`/`getRevision`: the upstream
revision `rev` is the network oracle, as are the outcomes of signature
verification (`verifyOK`) and of the pull/manifest/layer pipeline
(`pullOK`). -/

def storageOperationFailedCond : Str := "StorageOperationFailed".toList

def ociPullFailedReason : Str := "OCIPullFailed".toList

def archiveOperationFailedReason : Str := "ArchiveOperationFailed".toList

/-- Outcome of the source phase. -/
structure SourceOutcome where
  obj : OCIObj
  metaRevision : Option Str
  result : RResult
  errored : Bool
  errReason : Str
  pulled : Bool
  verifyAttempted : Bool
deriving DecidableEq, Repr

/-- The deferred revision observation of `reconcileSource` (lines 835–847):
when the fetched revision is not the advertised one, mark ArtifactOutdated
(only when an artifact exists) and record progress in the Reconciling
condition. -/
def observeNewRevision (rev : Str) (obj : OCIObj) : OCIObj :=
  if !hasRevision obj.artifact rev then
    let cs1 :=
      if obj.artifact.isSome then
        markTrue obj.conditions artifactOutdatedCond newRevisionReason obj.generation
      else obj.conditions
    { obj with conditions := markTrue cs1 reconcilingCond progressingReason obj.generation }
  else obj

/-- Lines 887–969: skip pulling when the advertised artifact already has the
fetched revision and the content configuration is unchanged; otherwise pull
(oracle `pullOK`), recording FetchFailed on failure and deleting it on
success. -/
def sourceSkipOrPull (pullOK : Bool) (rev : Str) (obj : OCIObj)
    (verifyAttempted : Bool) : SourceOutcome :=
  if hasRevision obj.artifact rev && !ociContentConfigChanged obj then
    ⟨{ obj with conditions := delCond obj.conditions fetchFailedCond }, some rev,
      RResult.success, false, [], false, verifyAttempted⟩
  else if pullOK then
    ⟨{ obj with conditions := delCond obj.conditions fetchFailedCond }, some rev,
      RResult.success, false, [], true, verifyAttempted⟩
  else
    ⟨{ obj with conditions :=
        markTrue obj.conditions fetchFailedCond ociPullFailedReason obj.generation },
      some rev, RResult.empty, true, ociPullFailedReason, true, verifyAttempted⟩

/-- Lines 849–885, the verification gate: with `spec.verify` unset the
SourceVerified condition is dropped; otherwise verification runs when the
revision is new, the generation drifted, or the previous verification
failed — and in that case an insecure registry configuration fails
immediately with reason VerificationError, before any verification or pull
attempt. -/
def sourceVerifyGate (verifyOK pullOK : Bool) (rev : Str) (obj : OCIObj) : SourceOutcome :=
  if !obj.specVerify then
    sourceSkipOrPull pullOK rev
      { obj with conditions := delCond obj.conditions sourceVerifiedCond } false
  else if !hasRevision obj.artifact rev
      || !(getCondObservedGen obj.conditions sourceVerifiedCond == obj.generation)
      || isFalseCond obj.conditions sourceVerifiedCond then
    if obj.specInsecure then
      ⟨{ obj with conditions :=
          markFalse obj.conditions sourceVerifiedCond verificationErrorReason obj.generation },
        some rev, RResult.empty, true, verificationErrorReason, false, false⟩
    else if verifyOK then
      sourceSkipOrPull pullOK rev
        { obj with conditions :=
            markTrue obj.conditions sourceVerifiedCond succeededReason obj.generation } true
    else
      ⟨{ obj with conditions :=
          markFalse obj.conditions sourceVerifiedCond verificationErrorReason obj.generation },
        some rev, RResult.empty, true, verificationErrorReason, false, true⟩
  else
    sourceSkipOrPull pullOK rev obj false

/-- `OCIRepositoryReconciler.reconcileSource` for a successfully resolved
revision: drop a previously failed SourceVerified condition (lines 762–764),
run the verification gate and the skip-or-pull step, and apply the deferred
revision observation on exit. -/
def reconcileSource (verifyOK pullOK : Bool) (rev : Str) (obj0 : OCIObj) : SourceOutcome :=
  let obj :=
    if isFalseCond obj0.conditions sourceVerifiedCond then
      { obj0 with conditions := delCond obj0.conditions sourceVerifiedCond }
    else obj0
  let out := sourceVerifyGate verifyOK pullOK rev obj
  { out with obj := observeNewRevision rev out.obj }

/-- `digestFromRevision` (lines 1048–1051). -/
def digestFromRevision (rev : Str) : Str := (splitOnC '/' rev).getLastD []

/-- `Storage.NewArtifactFor` for the OCIRepository artifact
`<digest>.tar.gz` (line 1385); the checksum and URL host are filled in at
archive time. -/
def ociNewArtifact (obj : OCIObj) (rev : Str) : Artifact :=
  ⟨⟨obj.meta.kind, obj.meta.nspace, obj.meta.name,
      digestFromRevision rev ++ ".tar.gz".toList⟩, rev, [], []⟩

/-- Modelled from the spec: the `latest.tar.gz` symlink URL of an object
(spec §6: `<storage-host>/<kind>/<namespace>/<name>/latest.tar.gz`). -/
def symlinkURL (host : Str) (m : ObjMeta) : UrlV :=
  ⟨host, m.kind ++ '/' :: m.nspace ++ '/' :: m.name ++ '/' :: "latest.tar.gz".toList⟩

/-- Outcome of the artifact phase. -/
structure ArtifactOutcome where
  obj : OCIObj
  storage : Storage
  result : RResult
  errored : Bool
  archived : Bool
deriving DecidableEq, Repr

/-- The deferred ArtifactInStorage marking of `reconcileArtifact` (lines
1388–1395), applied to the outcome. -/
def finishArtifact (rev : Str) (o : ArtifactOutcome) : ArtifactOutcome :=
  if hasRevision o.obj.artifact rev && !ociContentConfigChanged o.obj then
    let cs :=
      markTrue (delCond o.obj.conditions artifactOutdatedCond) artifactInStorageCond
        succeededReason o.obj.generation
    { o with obj := { o.obj with conditions := cs } }
  else o

/-- `OCIRepositoryReconciler.reconcileArtifact` (lines 1380–1491): return
early when the advertised artifact already has the given revision and the
content configuration is unchanged; otherwise archive the fetched content
under lock (oracle `archiveOK`, checksum oracle `newChecksum`), record the
new artifact, the content-configuration observations and the symlink URL. -/
def reconcileArtifact (host : Str) (newChecksum : Str) (archiveOK : Bool)
    (st : Storage) (metaRevision : Str) (obj : OCIObj) : ArtifactOutcome :=
  let artifact := ociNewArtifact obj metaRevision
  if hasRevision obj.artifact artifact.revision && !ociContentConfigChanged obj then
    finishArtifact artifact.revision ⟨obj, st, RResult.success, false, false⟩
  else if !archiveOK then
    let cs :=
      markTrue obj.conditions storageOperationFailedCond archiveOperationFailedReason
        obj.generation
    finishArtifact artifact.revision
      ⟨{ obj with conditions := cs }, st, RResult.empty, true, true⟩
  else
    let stored := { artifact with checksum := newChecksum, urlHost := host }
    finishArtifact artifact.revision
      ⟨{ obj with
          artifact := some stored
          observedIgnore := obj.specIgnore
          observedLayerSelector := obj.specLayerSelector
          statusURL := some (symlinkURL host obj.meta)
          conditions := delCond obj.conditions storageOperationFailedCond },
        stored.path :: st, RResult.success, false, true⟩

/-- The checksum of an optional artifact, `""` for nil (as in `notify`'s
`oldChecksum`). -/
def artifactChecksum (a : Option Artifact) : Str :=
  match a with
  | some x => x.checksum
  | none => []

/-- `OCIRepositoryReconciler.notify` (lines 1563–1606): a NewArtifact event
is emitted exactly when the reconciliation succeeded with an artifact whose
checksum differs from the old one. -/
def notifyNewArtifact (oldObj newObj : OCIObj) (res : RResult) (resErr : Bool) : Bool :=
  if !resErr && res == RResult.success && newObj.artifact.isSome then
    !(artifactChecksum oldObj.artifact == artifactChecksum newObj.artifact)
  else false

theorem find?_filter_of_imp {α : Type} (p q : α → Bool) (l : List α)
    (h : ∀ x, p x = true → q x = true) :
    (l.filter q).find? p = l.find? p := by
  induction l with
  | nil => rfl
  | cons a as ih =>
    by_cases hp : p a = true
    · have hq := h a hp
      simp [List.filter_cons, hq, List.find?_cons, hp]
    · have hp' : p a = false := by simpa using hp
      by_cases hq : q a = true <;>
        simp [List.filter_cons, hq, List.find?_cons, hp', ih]

theorem getCond_setCond_ne (cs : Conditions) (c : Condition) (t : Str)
    (h : c.ctype ≠ t) :
    getCond (setCond cs c) t = getCond cs t := by
  simp only [getCond, setCond, List.find?_cons]
  have hc : (decide (c.ctype = t)) = false := by simpa using h
  rw [hc]
  exact find?_filter_of_imp _ _ cs (by
    intro x hx
    have hxt : x.ctype = t := by simpa using hx
    simp [hxt, Ne.symm h])

/-- Claim C3: a second reconciliation on an unchanged input (same upstream
revision, unchanged ignore patterns and layer selector, same observed
generation, verification — when enabled — recorded as succeeded at this
generation) is idempotent: the source phase succeeds without pulling and
leaves `status.artifact` unchanged, the artifact phase succeeds without
archiving and leaves `status.artifact` and the storage unchanged, no
NewArtifact event is emitted, and in general `notify` emits NewArtifact
only when the old and new artifact checksums differ. -/
theorem unchangedInputIsIdempotent
    (host newChecksum rev : Str) (verifyOK pullOK archiveOK : Bool)
    (st : Storage) (obj : OCIObj) (a : Artifact)
    (hart : obj.artifact = some a)
    (hrev : a.revision = rev)
    (hcfg : ociContentConfigChanged obj = false)
    (hgen : obj.observedGeneration = obj.generation)
    (hver : obj.specVerify = true →
      ∃ c : Condition, getCond obj.conditions sourceVerifiedCond = some c ∧
        c.cstatus = true ∧ c.gen = obj.generation) :
    (reconcileSource verifyOK pullOK rev obj).result = RResult.success ∧
    (reconcileSource verifyOK pullOK rev obj).errored = false ∧
    (reconcileSource verifyOK pullOK rev obj).pulled = false ∧
    (reconcileSource verifyOK pullOK rev obj).obj.artifact = obj.artifact ∧
    (reconcileArtifact host newChecksum archiveOK st rev
      (reconcileSource verifyOK pullOK rev obj).obj).result = RResult.success ∧
    (reconcileArtifact host newChecksum archiveOK st rev
      (reconcileSource verifyOK pullOK rev obj).obj).archived = false ∧
    (reconcileArtifact host newChecksum archiveOK st rev
      (reconcileSource verifyOK pullOK rev obj).obj).storage = st ∧
    (reconcileArtifact host newChecksum archiveOK st rev
      (reconcileSource verifyOK pullOK rev obj).obj).obj.artifact = obj.artifact ∧
    notifyNewArtifact obj
      (reconcileArtifact host newChecksum archiveOK st rev
        (reconcileSource verifyOK pullOK rev obj).obj).obj
      (reconcileArtifact host newChecksum archiveOK st rev
        (reconcileSource verifyOK pullOK rev obj).obj).result
      (reconcileArtifact host newChecksum archiveOK st rev
        (reconcileSource verifyOK pullOK rev obj).obj).errored = false ∧
    (∀ (o n : OCIObj) (r : RResult) (e : Bool), notifyNewArtifact o n r e = true →
      artifactChecksum o.artifact ≠ artifactChecksum n.artifact) := by
  have hhr0 : hasRevision obj.artifact rev = true := by
    simp [hasRevision, hart, hrev]
  have hskip : ∀ (o1 : OCIObj) (va : Bool), o1.artifact = obj.artifact →
      ociContentConfigChanged o1 = false →
      sourceSkipOrPull pullOK rev o1 va =
        ⟨{ o1 with conditions := delCond o1.conditions fetchFailedCond }, some rev,
          RResult.success, false, [], false, va⟩ := by
    intro o1 va h1 h2
    have h3 : hasRevision o1.artifact rev = true := by rw [h1]; exact hhr0
    simp [sourceSkipOrPull, h3, h2]
  have hs : ∃ cs : Conditions, reconcileSource verifyOK pullOK rev obj =
      ⟨{ obj with conditions := cs }, some rev, RResult.success, false, [], false, false⟩ := by
    by_cases hv : obj.specVerify = true
    · obtain ⟨c, hc, hcs, hcg⟩ := hver hv
      have hisf : isFalseCond obj.conditions sourceVerifiedCond = false := by
        simp [isFalseCond, hc, hcs]
      have h2 : getCondObservedGen obj.conditions sourceVerifiedCond = obj.generation := by
        simp [getCondObservedGen, hc, hcg]
      refine ⟨delCond obj.conditions fetchFailedCond, ?_⟩
      have hgate : sourceVerifyGate verifyOK pullOK rev obj =
          sourceSkipOrPull pullOK rev obj false := by
        simp [sourceVerifyGate, hv, hhr0, h2, hisf]
      have hout : sourceVerifyGate verifyOK pullOK rev obj =
          ⟨{ obj with conditions := delCond obj.conditions fetchFailedCond }, some rev,
            RResult.success, false, [], false, false⟩ :=
        hgate.trans (hskip obj false rfl hcfg)
      have hunf : reconcileSource verifyOK pullOK rev obj =
          { sourceVerifyGate verifyOK pullOK rev obj with
            obj := observeNewRevision rev (sourceVerifyGate verifyOK pullOK rev obj).obj } := by
        simp [reconcileSource, hisf]
      rw [hunf, hout]
      simp [observeNewRevision, hasRevision, hart, hrev]
    · have hv' : obj.specVerify = false := by simpa using hv
      by_cases hisf : isFalseCond obj.conditions sourceVerifiedCond = true
      · set obj1 : OCIObj :=
          { obj with conditions := delCond obj.conditions sourceVerifiedCond } with hobj1
        refine ⟨delCond (delCond (delCond obj.conditions sourceVerifiedCond)
          sourceVerifiedCond) fetchFailedCond, ?_⟩
        have hgate : sourceVerifyGate verifyOK pullOK rev obj1 =
            sourceSkipOrPull pullOK rev
              { obj1 with conditions := delCond obj1.conditions sourceVerifiedCond } false := by
          simp [sourceVerifyGate, hobj1, hv']
        have hout : sourceVerifyGate verifyOK pullOK rev obj1 =
            ⟨{ obj1 with conditions := delCond (delCond obj1.conditions sourceVerifiedCond) fetchFailedCond }, some rev, RResult.success, false, [], false, false⟩ :=
          hgate.trans
            (hskip { obj1 with conditions := delCond obj1.conditions sourceVerifiedCond }
              false rfl hcfg)
        have hunf : reconcileSource verifyOK pullOK rev obj =
            { sourceVerifyGate verifyOK pullOK rev obj1 with
              obj := observeNewRevision rev (sourceVerifyGate verifyOK pullOK rev obj1).obj } := by
          simp [reconcileSource, hisf, hobj1]
        rw [hunf, hout]
        simp [observeNewRevision, hasRevision, hobj1, hart, hrev]
      · have hisf' : isFalseCond obj.conditions sourceVerifiedCond = false := by
          simpa using hisf
        refine ⟨delCond (delCond obj.conditions sourceVerifiedCond) fetchFailedCond, ?_⟩
        have hgate : sourceVerifyGate verifyOK pullOK rev obj =
            sourceSkipOrPull pullOK rev
              { obj with conditions := delCond obj.conditions sourceVerifiedCond } false := by
          simp [sourceVerifyGate, hv']
        have hout : sourceVerifyGate verifyOK pullOK rev obj =
            ⟨{ obj with conditions := delCond (delCond obj.conditions sourceVerifiedCond) fetchFailedCond }, some rev, RResult.success, false, [], false, false⟩ :=
          hgate.trans
            (hskip { obj with conditions := delCond obj.conditions sourceVerifiedCond }
              false rfl hcfg)
        have hunf : reconcileSource verifyOK pullOK rev obj =
            { sourceVerifyGate verifyOK pullOK rev obj with
              obj := observeNewRevision rev (sourceVerifyGate verifyOK pullOK rev obj).obj } := by
          simp [reconcileSource, hisf']
        rw [hunf, hout]
        simp [observeNewRevision, hasRevision, hart, hrev]
  obtain ⟨cs, hs⟩ := hs
  have hccs : ociContentConfigChanged { obj with conditions := cs } = false := hcfg
  have hhrs : hasRevision ({ obj with conditions := cs } : OCIObj).artifact rev = true := hhr0
  have ht : reconcileArtifact host newChecksum archiveOK st rev { obj with conditions := cs } =
      ⟨{ obj with conditions := markTrue (delCond cs artifactOutdatedCond) artifactInStorageCond succeededReason obj.generation }, st,
        RResult.success, false, false⟩ := by
    simp [reconcileArtifact, ociNewArtifact, hhrs, hccs, finishArtifact]
  have hnotifyGeneral : ∀ (o n : OCIObj) (r : RResult) (e : Bool),
      notifyNewArtifact o n r e = true →
      artifactChecksum o.artifact ≠ artifactChecksum n.artifact := by
    intro o n r e h
    simp only [notifyNewArtifact] at h
    split at h
    · simpa using h
    · exact absurd h (by simp)
  refine ⟨?_, ?_, ?_, ?_, ?_, ?_, ?_, ?_, ?_, hnotifyGeneral⟩ <;>
    rw [hs] <;> try rw [ht]
  all_goals first
    | rfl
    | simp [notifyNewArtifact, artifactChecksum, hart]

/-- A concrete OCIRepository artifact for witnesses. -/
def sampleArtifact : Artifact :=
  ⟨⟨"OCIRepository".toList, "ns".toList, "app".toList, "abc.tar.gz".toList⟩,
    "latest/abc".toList, "sum".toList, "h".toList⟩

/-- A concrete OCIRepository object, up to date with revision
`latest/abc`. -/
def sampleOCIObj : OCIObj :=
  { meta := ⟨"OCIRepository".toList, "ns".toList, "app".toList⟩
    generation := 1
    observedGeneration := 1
    suspend := false
    specIgnore := none
    specLayerSelector := none
    specVerify := false
    specInsecure := false
    artifact := some sampleArtifact
    statusURL := some ⟨"h".toList, "/x".toList⟩
    observedIgnore := none
    observedLayerSelector := none
    conditions := [] }

/-- Witness for C3: on the up-to-date object, the second run pulls nothing,
archives nothing and emits no NewArtifact event. -/
theorem unchangedInputIsIdempotent_witness :
    sampleOCIObj.artifact = some sampleArtifact ∧
    ociContentConfigChanged sampleOCIObj = false ∧
    (reconcileSource true true "latest/abc".toList sampleOCIObj).pulled = false ∧
    (reconcileSource true true "latest/abc".toList sampleOCIObj).obj.artifact =
      sampleOCIObj.artifact ∧
    (reconcileArtifact "h".toList "sum".toList true [] "latest/abc".toList
      (reconcileSource true true "latest/abc".toList sampleOCIObj).obj).archived = false ∧
    notifyNewArtifact sampleOCIObj
      (reconcileArtifact "h".toList "sum".toList true [] "latest/abc".toList
        (reconcileSource true true "latest/abc".toList sampleOCIObj).obj).obj
      (reconcileArtifact "h".toList "sum".toList true [] "latest/abc".toList
        (reconcileSource true true "latest/abc".toList sampleOCIObj).obj).result
      (reconcileArtifact "h".toList "sum".toList true [] "latest/abc".toList
        (reconcileSource true true "latest/abc".toList sampleOCIObj).obj).errored = false := by
  have h := unchangedInputIsIdempotent "h".toList "sum".toList "latest/abc".toList
    true true true [] sampleOCIObj sampleArtifact rfl rfl (by decide) rfl
    (fun hc => absurd hc (by decide))
  exact ⟨rfl, by decide, h.2.2.1, h.2.2.2.1, h.2.2.2.2.2.1, h.2.2.2.2.2.2.2.2.1⟩

/-- Claim C8: with verification enabled, `spec.insecure = true` and
verification due (new revision, generation drift, or a previously failed
verification — on an object of non-zero generation, as every persisted
Kubernetes object has), the source phase fails with reason
VerificationError, marks SourceVerified=False, and attempts neither
signature verification nor a pull. -/
theorem insecureVerificationFails
    (verifyOK pullOK : Bool) (rev : Str) (obj : OCIObj)
    (hv : obj.specVerify = true) (hins : obj.specInsecure = true)
    (hgenNZ : obj.generation ≠ 0)
    (hdue : hasRevision obj.artifact rev = false ∨
      getCondObservedGen obj.conditions sourceVerifiedCond ≠ obj.generation ∨
      isFalseCond obj.conditions sourceVerifiedCond = true) :
    (reconcileSource verifyOK pullOK rev obj).errored = true ∧
    (reconcileSource verifyOK pullOK rev obj).errReason = verificationErrorReason ∧
    (reconcileSource verifyOK pullOK rev obj).result = RResult.empty ∧
    (reconcileSource verifyOK pullOK rev obj).verifyAttempted = false ∧
    (reconcileSource verifyOK pullOK rev obj).pulled = false ∧
    getCond (reconcileSource verifyOK pullOK rev obj).obj.conditions sourceVerifiedCond =
      some ⟨sourceVerifiedCond, false, verificationErrorReason, obj.generation⟩ := by
  have hneRec : reconcilingCond ≠ sourceVerifiedCond := by decide
  have hneOut : artifactOutdatedCond ≠ sourceVerifiedCond := by decide
  have hpresRec : ∀ (cs : Conditions) (r : Str) (g : Int),
      getCond (setCond cs ⟨reconcilingCond, true, r, g⟩) sourceVerifiedCond =
        getCond cs sourceVerifiedCond := by
    intro cs r g
    exact getCond_setCond_ne cs ⟨reconcilingCond, true, r, g⟩ sourceVerifiedCond hneRec
  have hpresOut : ∀ (cs : Conditions) (r : Str) (g : Int),
      getCond (setCond cs ⟨artifactOutdatedCond, true, r, g⟩) sourceVerifiedCond =
        getCond cs sourceVerifiedCond := by
    intro cs r g
    exact getCond_setCond_ne cs ⟨artifactOutdatedCond, true, r, g⟩ sourceVerifiedCond hneOut
  by_cases hisf : isFalseCond obj.conditions sourceVerifiedCond = true
  · have h0 : getCondObservedGen (delCond obj.conditions sourceVerifiedCond)
        sourceVerifiedCond = 0 := by
      simp [getCondObservedGen, getCond_delCond]
    have hg0 : (((0 : Int)) == obj.generation) = false := by
      simp
      exact fun hg => hgenNZ hg.symm
    have hgate : sourceVerifyGate verifyOK pullOK rev { obj with conditions := delCond obj.conditions sourceVerifiedCond } = ⟨{ obj with conditions := markFalse (delCond obj.conditions sourceVerifiedCond) sourceVerifiedCond verificationErrorReason obj.generation }, some rev, RResult.empty, true, verificationErrorReason, false, false⟩ := by
      simp [sourceVerifyGate, hv, hins, h0, hg0]
    have hunf : reconcileSource verifyOK pullOK rev obj = { sourceVerifyGate verifyOK pullOK rev { obj with conditions := delCond obj.conditions sourceVerifiedCond } with obj := observeNewRevision rev (sourceVerifyGate verifyOK pullOK rev { obj with conditions := delCond obj.conditions sourceVerifiedCond }).obj } := by
      simp [reconcileSource, hisf]
    rw [hunf, hgate]
    have hget : getCond (markFalse (delCond obj.conditions sourceVerifiedCond)
        sourceVerifiedCond verificationErrorReason obj.generation) sourceVerifiedCond =
        some ⟨sourceVerifiedCond, false, verificationErrorReason, obj.generation⟩ :=
      getCond_setCond_self _ _
    refine ⟨rfl, rfl, rfl, rfl, rfl, ?_⟩
    simp only [observeNewRevision, markTrue]
    split
    · rw [hpresRec]
      split
      · rw [hpresOut]
        exact hget
      · exact hget
    · exact hget
  · have hisf2 : isFalseCond obj.conditions sourceVerifiedCond = false := by
      simpa using hisf
    have hdue1 : (!hasRevision obj.artifact rev
        || !(getCondObservedGen obj.conditions sourceVerifiedCond == obj.generation)
        || isFalseCond obj.conditions sourceVerifiedCond) = true := by
      rcases hdue with h | h | h
      · simp [h]
      · have hg1 : (getCondObservedGen obj.conditions sourceVerifiedCond ==
            obj.generation) = false := by
          simp
          exact h
        simp [hg1]
      · exact absurd h (by simp [hisf2])
    have hgate : sourceVerifyGate verifyOK pullOK rev obj = ⟨{ obj with conditions := markFalse obj.conditions sourceVerifiedCond verificationErrorReason obj.generation }, some rev, RResult.empty, true, verificationErrorReason, false, false⟩ := by
      simp only [sourceVerifyGate, hv, Bool.not_true, Bool.false_eq_true, if_false, hdue1,
        if_true, hins]
    have hunf : reconcileSource verifyOK pullOK rev obj = { sourceVerifyGate verifyOK pullOK rev obj with obj := observeNewRevision rev (sourceVerifyGate verifyOK pullOK rev obj).obj } := by
      simp [reconcileSource, hisf2]
    rw [hunf, hgate]
    have hget : getCond (markFalse obj.conditions sourceVerifiedCond
        verificationErrorReason obj.generation) sourceVerifiedCond =
        some ⟨sourceVerifiedCond, false, verificationErrorReason, obj.generation⟩ :=
      getCond_setCond_self _ _
    refine ⟨rfl, rfl, rfl, rfl, rfl, ?_⟩
    simp only [observeNewRevision, markTrue]
    split
    · rw [hpresRec]
      split
      · rw [hpresOut]
        exact hget
      · exact hget
    · exact hget

/-- Witness for C8: a generation-2 object with verification enabled on an
insecure registry and a stale SourceVerified observation fails with
VerificationError without verifying or pulling. -/
theorem insecureVerificationFails_witness :
    ((sampleOCIObj.meta = sampleOCIObj.meta) ∧
      getCondObservedGen ({ sampleOCIObj with generation := 2, specVerify := true, specInsecure := true } : OCIObj).conditions sourceVerifiedCond ≠ 2) ∧
    (reconcileSource true true "latest/abc".toList
      { sampleOCIObj with generation := 2, specVerify := true, specInsecure := true }).errored = true ∧
    (reconcileSource true true "latest/abc".toList
      { sampleOCIObj with generation := 2, specVerify := true, specInsecure := true }).errReason = verificationErrorReason ∧
    (reconcileSource true true "latest/abc".toList
      { sampleOCIObj with generation := 2, specVerify := true, specInsecure := true }).verifyAttempted = false ∧
    (reconcileSource true true "latest/abc".toList
      { sampleOCIObj with generation := 2, specVerify := true, specInsecure := true }).pulled = false := by
  have h := insecureVerificationFails true true "latest/abc".toList
    { sampleOCIObj with generation := 2, specVerify := true, specInsecure := true }
    rfl rfl (by decide) (Or.inr (Or.inl (by decide)))
  exact ⟨⟨rfl, by decide⟩, h.1, h.2.1, h.2.2.2.1, h.2.2.2.2.1⟩

/-! ## Claim C6: the revision format computed by getRevision -/

/-- `OCIRepositoryReconciler.getRevision` (lines 1013–1045), for a reference
URL whose registry part (`ref.Context().RegistryStr()`) is `registry` and
whose digest resolves to hex `digestHex` (`crane.Digest` and `gcrv1.NewHash`
are the network oracle): derive the tag from the URL string and return
`tag "/" digestHex` — with the implicit tag `latest` when the URL carries
neither tag nor digest — or just `digestHex` when the reference has no
tag. -/
def getRevision (registry url digestHex : Str) : Str :=
  let repoName := trimStart registry url
  let s := splitOnC ':' repoName
  let repoTag0 :=
    if s.length == 2 && !containsC '@' repoName then s.getD 1 [] else []
  let repoTag :=
    if repoTag0 == [] && !containsC '@' repoName then "latest".toList else repoTag0
  if repoTag == [] then digestHex else repoTag ++ '/' :: digestHex

theorem hasPfxC_append (pat x : Str) : hasPfxC pat (pat ++ x) = true := by
  induction pat with
  | nil => rfl
  | cons a as ih => simp [hasPfxC, ih]

theorem trimStart_append (pat x : Str) : trimStart pat (pat ++ x) = x := by
  simp [trimStart, hasPfxC_append]

theorem splitOnC_of_not_contains (c : Char) (s : Str) (h : containsC c s = false) :
    splitOnC c s = [s] := by
  induction s with
  | nil => rfl
  | cons a as ih =>
    have h' : (a == c) = false ∧ containsC c as = false := by
      simpa [containsC, Bool.or_eq_false_iff] using h
    simp [splitOnC, h'.1, ih h'.2]

theorem splitOnC_append_single (c : Char) (repo tag : Str)
    (h1 : containsC c repo = false) (h2 : containsC c tag = false) :
    splitOnC c (repo ++ c :: tag) = [repo, tag] := by
  induction repo with
  | nil => simp [splitOnC, splitOnC_of_not_contains c tag h2]
  | cons a as ih =>
    have h' : (a == c) = false ∧ containsC c as = false := by
      simpa [containsC, Bool.or_eq_false_iff] using h1
    simp [splitOnC, h'.1, ih h'.2]

theorem containsC_append (c : Char) (xs ys : Str) :
    containsC c (xs ++ ys) = (containsC c xs || containsC c ys) := by
  simp [containsC]

/-- Claim C6: the revision returned by the source phase is
`tag "/" digestHex` when the resolved reference carries a tag — including
the implicit tag `latest` when neither tag nor digest is given — and just
`digestHex` when the reference is pinned by digest. -/
theorem getRevisionFormat (registry repo tag dref hex : Str)
    (hrepoC : containsC ':' repo = false) (hrepoA : containsC '@' repo = false)
    (htagC : containsC ':' tag = false) (htagA : containsC '@' tag = false)
    (htagNE : tag ≠ []) :
    getRevision registry (registry ++ repo ++ ':' :: tag) hex = tag ++ '/' :: hex ∧
    getRevision registry (registry ++ repo ++ '@' :: dref) hex = hex ∧
    getRevision registry (registry ++ repo) hex = "latest".toList ++ '/' :: hex := by
  refine ⟨?_, ?_, ?_⟩
  · have htrim : trimStart registry (registry ++ repo ++ ':' :: tag) = repo ++ ':' :: tag := by
      rw [List.append_assoc]
      exact trimStart_append registry (repo ++ ':' :: tag)
    have hsplit : splitOnC ':' (repo ++ ':' :: tag) = [repo, tag] :=
      splitOnC_append_single ':' repo tag hrepoC htagC
    have hat : containsC '@' (repo ++ ':' :: tag) = false := by
      show ((repo ++ ':' :: tag).any (fun a => a == '@')) = false
      simp only [List.any_append, List.any_cons]
      rw [show (repo.any (fun a => a == '@')) = false from hrepoA,
        show (tag.any (fun a => a == '@')) = false from htagA]
      rfl
    have htag0 : (tag == []) = false := by
      simpa using htagNE
    unfold getRevision
    rw [htrim]
    simp [hsplit, hat, htag0]
  · have htrim : trimStart registry (registry ++ repo ++ '@' :: dref) = repo ++ '@' :: dref := by
      rw [List.append_assoc]
      exact trimStart_append registry (repo ++ '@' :: dref)
    have hat : containsC '@' (repo ++ '@' :: dref) = true := by
      simp [containsC_append, containsC]
    unfold getRevision
    rw [htrim]
    simp [hat]
  · have htrim : trimStart registry (registry ++ repo) = repo :=
      trimStart_append registry repo
    have hsplit : splitOnC ':' repo = [repo] :=
      splitOnC_of_not_contains ':' repo hrepoC
    unfold getRevision
    rw [htrim]
    simp [hsplit, hrepoA]

/-- Witness for C6 at `index.docker.io` references: a tag reference yields
`1.2.3/abc`, a digest reference yields `abc`, and a bare reference yields
`latest/abc`. -/
theorem getRevisionFormat_witness :
    containsC ':' "/org/app".toList = false ∧
    "1.2.3".toList ≠ [] ∧
    getRevision "index.docker.io".toList
      ("index.docker.io".toList ++ "/org/app".toList ++ ':' :: "1.2.3".toList)
      "abc".toList = "1.2.3/abc".toList ∧
    getRevision "index.docker.io".toList
      ("index.docker.io".toList ++ "/org/app".toList ++ '@' :: "sha256:def".toList)
      "abc".toList = "abc".toList ∧
    getRevision "index.docker.io".toList
      ("index.docker.io".toList ++ "/org/app".toList) "abc".toList =
      "latest/abc".toList := by
  have h := getRevisionFormat "index.docker.io".toList "/org/app".toList
    "1.2.3".toList "sha256:def".toList "abc".toList
    (by decide) (by decide) (by decide) (by decide) (by decide)
  exact ⟨by decide, by decide, h.1.trans (by decide), h.2.1, h.2.2.trans (by decide)⟩

/-! ## Semantic versions

`getTagBySemver` (lines 1183–1212) parses tags with
`fluxcd/pkg/version.ParseVersion` (a strict `Masterminds/semver/v3` parse
that tolerates one leading `v`), filters them through the constraint, sorts
the matches in descending `Version.Compare` order and returns the first
tag's `Original()`.  The parser, comparison and the plain-comparator
constraint fragment of that library are embedded below.  Numeric values are
`Nat` (the library parses into `uint64`; identifiers of 2^64 and beyond are
out of scope). -/

def isDigitC (c : Char) : Bool := '0' ≤ c && c ≤ '9'

def isAlphaC (c : Char) : Bool := ('a' ≤ c && c ≤ 'z') || ('A' ≤ c && c ≤ 'Z')

/-- The `allowed` character set of Masterminds/semver: letters, digits and
the hyphen. -/
def isAllowedC (c : Char) : Bool := isAlphaC c || isDigitC c || c == '-'

/-- `containsOnly`. -/
def containsOnly (s : Str) (f : Char → Bool) : Bool := s.all f

/-- The numeric value of a digit string. -/
def digitsToNat (s : Str) : Nat :=
  s.foldl (fun n c => n * 10 + (c.toNat - '0'.toNat)) 0

/-- `strconv.ParseUint(s, 10, 64)`: digits only, non-empty. -/
def parseUint (s : Str) : Option Nat :=
  if !s.isEmpty && s.all isDigitC then some (digitsToNat s) else none

/-- Split at the first occurrence of `c`: `none` when `c` does not occur. -/
def breakAtC (c : Char) : Str → Option (Str × Str)
  | [] => none
  | a :: as =>
    if a == c then some ([], as)
    else (breakAtC c as).map (fun p => (a :: p.1, p.2))

/-- Go `strings.SplitN(s, c, n)` for a single-character separator and
`n ≥ 1`. -/
def splitNC (c : Char) : Nat → Str → List Str
  | 0, _ => []
  | 1, s => [s]
  | Nat.succ n, s =>
    match breakAtC c s with
    | none => [s]
    | some (pre, post) => pre :: splitNC c n post

/-- A parsed semantic version: numeric core, raw prerelease string (empty
for none) and build metadata (ignored by comparison). -/
structure SemVer where
  major : Nat
  minor : Nat
  patch : Nat
  pre : Str
  metadata : Str
deriving DecidableEq, Repr

/-- One prerelease identifier check of `validatePrerelease`: an all-digit
identifier must not have a leading zero (unless of length one), any other
identifier must use only allowed characters. -/
def validIdent (p : Str) : Bool :=
  if containsOnly p isDigitC then !(decide (p.length > 1) && (p.headD ' ' == '0'))
  else containsOnly p isAllowedC

/-- `validatePrerelease`. -/
def validatePrerelease (p : Str) : Bool := (splitOnC '.' p).all validIdent

/-- `validateMetadata`. -/
def validateMetadata (m : Str) : Bool :=
  (splitOnC '.' m).all (fun p => containsOnly p isAllowedC)

/-- A core segment (major, minor, patch) of `StrictNewVersion`: all digits,
no leading zero, parseable. -/
def parseNumSegment (p : Str) : Option Nat :=
  if containsOnly p isDigitC && !(decide (p.length > 1) && (p.headD ' ' == '0')) then
    parseUint p
  else none

/-- `semver.StrictNewVersion`: split `major.minor.patch` (exactly three
parts), peel `+metadata` and then `-prerelease` off the third, validate
both, and parse the numeric segments. -/
def strictNewVersion (v : Str) : Option SemVer :=
  match splitNC '.' 3 v with
  | [p0, p1, p2] =>
    let md := if containsC '+' p2 then ((breakAtC '+' p2).getD (p2, [])).2 else []
    let p2b := if containsC '+' p2 then ((breakAtC '+' p2).getD (p2, [])).1 else p2
    if containsC '+' p2 && !validateMetadata md then none
    else
      let pre := if containsC '-' p2b then ((breakAtC '-' p2b).getD (p2b, [])).2 else []
      let p2c := if containsC '-' p2b then ((breakAtC '-' p2b).getD (p2b, [])).1 else p2b
      if containsC '-' p2b && !validatePrerelease pre then none
      else
        match parseNumSegment p0, parseNumSegment p1, parseNumSegment p2c with
        | some a, some b, some c => some ⟨a, b, c, pre, md⟩
        | _, _, _ => none
  | _ => none

/-- `fluxcd/pkg/version.ParseVersion`: `StrictNewVersion` after trimming a
single leading `v`; the `Original()` kept by the library is the tag itself,
which the pipeline below carries alongside. -/
def parseVersion (t : Str) : Option SemVer :=
  strictNewVersion (trimStart "v".toList t)

/-- Go's byte-wise `s < o` on strings (the verified identifiers are ASCII,
where byte order equals character order). -/
def goStrLt : Str → Str → Bool
  | [], [] => false
  | [], _ :: _ => true
  | _ :: _, [] => false
  | x :: xs, y :: ys =>
    if x < y then true
    else if y < x then false
    else goStrLt xs ys

/-- Go `s > o`. -/
def goStrGt (s o : Str) : Bool := goStrLt o s

/-- `comparePrePart` of Masterminds/semver: equal strings are 0; an empty
part is smaller; numeric parts are smaller than alphanumeric ones and
compare by value; alphanumeric parts compare as Go strings. -/
def comparePrePart (s o : Str) : Int :=
  if s == o then 0
  else if s == [] then (if !(o == []) then -1 else 1)
  else if o == [] then (if !(s == []) then 1 else -1)
  else
    match parseUint o, parseUint s with
    | none, none => if goStrGt s o then 1 else -1
    | none, some _ => -1
    | some _, none => 1
    | some oi, some si => if si > oi then 1 else -1

/-- The tail of the identifier loop of `comparePrerelease` once the left
side is exhausted: the left part is padded with the empty part. -/
def comparePreNil : List Str → Int
  | [] => 0
  | b :: bs =>
    let d := comparePrePart [] b
    if d ≠ 0 then d else comparePreNil bs

/-- The identifier loop of `comparePrerelease`: iterate to the longer
length, padding the missing side with the empty part. -/
def comparePreList : List Str → List Str → Int
  | [], bs => comparePreNil bs
  | a :: as, [] =>
    let d := comparePrePart a []
    if d ≠ 0 then d else comparePreList as []
  | a :: as, b :: bs =>
    let d := comparePrePart a b
    if d ≠ 0 then d else comparePreList as bs

/-- `comparePrerelease`. -/
def comparePrerelease (v o : Str) : Int :=
  comparePreList (splitOnC '.' v) (splitOnC '.' o)

/-- `compareSegment`. -/
def compareSegment (v o : Nat) : Int :=
  if v < o then -1 else if o < v then 1 else 0

/-- `Version.Compare`: major, minor, patch, then prerelease (a version
without prerelease is greater than one with). -/
def compareSemVer (v o : SemVer) : Int :=
  let d := compareSegment v.major o.major
  if d ≠ 0 then d
  else
    let d := compareSegment v.minor o.minor
    if d ≠ 0 then d
    else
      let d := compareSegment v.patch o.patch
      if d ≠ 0 then d
      else
        if v.pre == [] && o.pre == [] then 0
        else if v.pre == [] then 1
        else if o.pre == [] then -1
        else comparePrerelease v.pre o.pre

/-- The plain comparison operators of the Masterminds constraint
language. -/
inductive CmpOp where
  | eq
  | ne
  | gt
  | lt
  | ge
  | le
deriving DecidableEq, Repr

/-- One comparator: an operator applied to a fully specified reference
version. -/
structure Comparator where
  op : CmpOp
  ref : SemVer
deriving DecidableEq, Repr

/-- A parsed constraint in the plain-comparator fragment: an OR-list
(`||`-separated) of AND-groups (comma/space-separated comparators). -/
abbrev Constraint := List (List Comparator)

/-- One comparator check.  A version with a prerelease never matches a
comparator whose reference has none (the library's prerelease exclusion
rule). -/
def checkComparator (v : SemVer) (c : Comparator) : Bool :=
  if !(v.pre == []) && (c.ref.pre == []) then false
  else
    match c.op with
    | CmpOp.eq => compareSemVer v c.ref == 0
    | CmpOp.ne => !(compareSemVer v c.ref == 0)
    | CmpOp.gt => compareSemVer v c.ref == 1
    | CmpOp.lt => compareSemVer v c.ref == -1
    | CmpOp.ge => !(compareSemVer v c.ref == -1)
    | CmpOp.le => !(compareSemVer v c.ref == 1)

/-- `Constraints.Check`: some OR-group has all its comparators satisfied. -/
def checkConstraint (con : Constraint) (v : SemVer) : Bool :=
  con.any (fun grp => grp.all (checkComparator v))

/-- Insertion step of the descending sort
(`sort.Sort(sort.Reverse(semver.Collection(...)))`). -/
def insertDescBySemVer (x : Str × SemVer) :
    List (Str × SemVer) → List (Str × SemVer)
  | [] => [x]
  | y :: ys =>
    if compareSemVer x.2 y.2 ≥ 0 then x :: y :: ys
    else y :: insertDescBySemVer x ys

/-- Descending sort of the matching (tag, version) pairs. -/
def sortDescBySemVer (l : List (Str × SemVer)) : List (Str × SemVer) :=
  l.foldr insertDescBySemVer []

/-- `OCIRepositoryReconciler.getTagBySemver` (lines 1183–1212) for an
already fetched tag list and an already parsed constraint: parse each tag
(failures silently skipped), keep those matching the constraint, sort
descending, return the first tag; error when nothing matches. -/
def getTagBySemver (tags : List Str) (con : Constraint) : Except Str Str :=
  let matching := tags.filterMap (fun t =>
    match parseVersion t with
    | none => none
    | some v => if checkConstraint con v then some (t, v) else none)
  match sortDescBySemVer matching with
  | [] => Except.error ("no match found for semver".toList)
  | (t, _) :: _ => Except.ok t

/-! ### Order-theoretic facts about the comparison chain -/

theorem goStrLt_iff (a b : Str) : goStrLt a b = true ↔ List.Lex (· < ·) a b := by
  induction a generalizing b with
  | nil =>
    cases b with
    | nil =>
      exact iff_of_false (by simp [goStrLt]) (List.Lex.not_nil_right _ _)
    | cons y ys =>
      exact iff_of_true rfl List.Lex.nil
  | cons x xs ih =>
    cases b with
    | nil =>
      exact iff_of_false (by simp [goStrLt]) (List.Lex.not_nil_right _ _)
    | cons y ys =>
      by_cases h1 : x < y
      · exact iff_of_true (by simp [goStrLt, h1]) (List.Lex.rel h1)
      · by_cases h2 : y < x
        · refine iff_of_false (by simp [goStrLt, h1, h2]) ?_
          intro h
          cases h with
          | cons h' => exact absurd h2 (lt_irrefl _)
          | rel h' => exact h1 h'
        · have hxy : x = y := le_antisymm (not_lt.mp h2) (not_lt.mp h1)
          subst hxy
          have : goStrLt (x :: xs) (x :: ys) = goStrLt xs ys := by
            simp [goStrLt]
          rw [this, ih ys]
          exact (List.Lex.cons_iff).symm

/-- The order key of one prerelease identifier: the empty part at the
bottom, then numeric parts by value, then alphanumeric parts in the
lexicographic string order. -/
def identKey (p : Str) : WithBot (Nat ⊕ₗ (List Char)) :=
  if p = [] then ⊥
  else
    match parseUint p with
    | some n => ((toLex (Sum.inl n) : Nat ⊕ₗ (List Char)) : WithBot (Nat ⊕ₗ (List Char)))
    | none => ((toLex (Sum.inr p) : Nat ⊕ₗ (List Char)) : WithBot (Nat ⊕ₗ (List Char)))

theorem comparePrePart_self (a : Str) : comparePrePart a a = 0 := by
  simp [comparePrePart]

theorem comparePrePart_cases (a b : Str) :
    comparePrePart a b = -1 ∨ comparePrePart a b = 0 ∨ comparePrePart a b = 1 := by
  unfold comparePrePart
  repeat' split
  all_goals omega

theorem comparePrePart_eq_zero_iff (a b : Str) : comparePrePart a b = 0 ↔ a = b := by
  constructor
  · intro h
    by_cases hab : a = b
    · exact hab
    · exfalso
      have hne : (a == b) = false := by simpa using hab
      unfold comparePrePart at h
      rw [hne] at h
      simp only [Bool.false_eq_true, if_false] at h
      repeat' split at h
      all_goals omega
  · intro h
    subst h
    exact comparePrePart_self a

theorem comparePrePart_le_iff (a b : Str) :
    comparePrePart a b ≤ 0 ↔ identKey a ≤ identKey b := by
  by_cases hab : a = b
  · subst hab
    exact iff_of_true (by rw [comparePrePart_self]) le_rfl
  · have hne : (a == b) = false := by simpa using hab
    by_cases ha : a = []
    · subst ha
      have hb : (b == ([] : Str)) = false := by
        simpa using fun h => hab h.symm
      refine iff_of_true ?_ ?_
      · simp [comparePrePart, hne, hb]
      · simp [identKey]
    · by_cases hb : b = []
      · subst hb
        have ha' : (a == ([] : Str)) = false := by simpa using ha
        refine iff_of_false ?_ ?_
        · simp [comparePrePart, hne, ha']
        · simp only [identKey, if_pos rfl, if_neg ha]
          cases hpa : parseUint a <;> simp
      · have ha' : (a == ([] : Str)) = false := by simpa using ha
        have hb' : (b == ([] : Str)) = false := by simpa using hb
        have hkey : identKey a ≤ identKey b ↔
            (match parseUint a with
              | some n => (toLex (Sum.inl n) : Nat ⊕ₗ (List Char))
              | none => toLex (Sum.inr a)) ≤
            (match parseUint b with
              | some n => (toLex (Sum.inl n) : Nat ⊕ₗ (List Char))
              | none => toLex (Sum.inr b)) := by
          simp only [identKey, if_neg ha, if_neg hb]
          cases parseUint a <;> cases parseUint b <;>
            exact WithBot.coe_le_coe
        unfold comparePrePart
        rw [hne, hkey]
        simp only [Bool.false_eq_true, if_false, ha', hb']
        cases hpb : parseUint b <;> cases hpa : parseUint a
        · -- both alphanumeric: Go string order versus lexicographic order
          have hgt : goStrGt a b = goStrLt b a := rfl
          constructor
          · intro h
            by_cases hg : goStrLt b a = true
            · rw [hgt, hg] at h
              simp at h
            · have : ¬ List.Lex (· < ·) b a := fun hl => hg ((goStrLt_iff b a).mpr hl)
              simp only [Sum.Lex.inr_le_inr_iff]
              exact not_lt.mp this
          · intro h
            have : ¬ List.Lex (· < ·) b a := by
              have hba : a ≤ b := by simpa only [Sum.Lex.inr_le_inr_iff] using h
              exact fun hl => absurd hl (not_lt.mpr hba)
            have : goStrLt b a = false := by
              cases hg : goStrLt b a
              · rfl
              · exact absurd ((goStrLt_iff b a).mp hg) this
            rw [hgt, this]
            simp
        · -- a numeric, b alphanumeric: numbers are smaller
          exact iff_of_true (by simp) (Sum.Lex.inl_le_inr _ _)
        · -- a alphanumeric, b numeric
          exact iff_of_false (by simp) (Sum.Lex.not_inr_le_inl)
        · -- both numeric: compare by value
          rename_i oi si
          constructor
          · intro h
            have : ¬ si > oi := by
              intro hgt
              simp [hgt] at h
            simp only [Sum.Lex.inl_le_inl_iff]
            omega
          · intro h
            have hle : si ≤ oi := by simpa only [Sum.Lex.inl_le_inl_iff] using h
            have : (si > oi) = False := by simp; omega
            simp [this]

theorem char_eq_of_toNat_eq {a b : Char} (h : a.toNat = b.toNat) : a = b := by
  unfold Char.toNat at h
  exact Char.eq_of_val_eq (UInt32.toNat.inj h)

theorem digit_bounds (c : Char) (h : isDigitC c = true) :
    48 ≤ c.toNat ∧ c.toNat ≤ 57 := by
  simp [isDigitC] at h
  exact ⟨h.1, h.2⟩

theorem foldlDigits_acc (s : Str) (n : Nat) :
    s.foldl (fun n c => n * 10 + (c.toNat - '0'.toNat)) n =
      n * 10 ^ s.length + digitsToNat s := by
  induction s generalizing n with
  | nil => simp [digitsToNat]
  | cons c cs ih =>
    simp only [List.foldl_cons, List.length_cons, digitsToNat]
    rw [ih, ih]
    rw [pow_succ]
    ring

theorem digitsToNat_cons (c : Char) (cs : Str) :
    digitsToNat (c :: cs) = (c.toNat - '0'.toNat) * 10 ^ cs.length + digitsToNat cs := by
  show cs.foldl _ (0 * 10 + (c.toNat - '0'.toNat)) = _
  rw [foldlDigits_acc]
  simp

theorem digitsToNat_lt (s : Str) (h : s.all isDigitC = true) :
    digitsToNat s < 10 ^ s.length := by
  induction s with
  | nil => simp [digitsToNat]
  | cons c cs ih =>
    rw [List.all_cons, Bool.and_eq_true] at h
    have hd := digit_bounds c h.1
    have hv := ih h.2
    have h48 : ('0' : Char).toNat = 48 := rfl
    rw [digitsToNat_cons, List.length_cons, pow_succ]
    calc (c.toNat - '0'.toNat) * 10 ^ cs.length + digitsToNat cs
        < (c.toNat - '0'.toNat) * 10 ^ cs.length + 10 ^ cs.length := by omega
      _ = (c.toNat - '0'.toNat + 1) * 10 ^ cs.length := by ring
      _ ≤ 10 * 10 ^ cs.length := Nat.mul_le_mul_right _ (by omega)
      _ = 10 ^ cs.length * 10 := by ring

theorem digitsToNat_ge (c : Char) (cs : Str) (hc : isDigitC c = true) (h0 : c ≠ '0') :
    10 ^ cs.length ≤ digitsToNat (c :: cs) := by
  have hd := digit_bounds c hc
  have h48 : ('0' : Char).toNat = 48 := rfl
  have hne : c.toNat ≠ 48 := by
    intro h
    exact h0 (char_eq_of_toNat_eq (h.trans h48.symm))
  have h1 : 1 ≤ c.toNat - '0'.toNat := by omega
  rw [digitsToNat_cons]
  calc 10 ^ cs.length = 1 * 10 ^ cs.length := by ring
    _ ≤ (c.toNat - '0'.toNat) * 10 ^ cs.length := Nat.mul_le_mul_right _ h1
    _ ≤ _ := Nat.le_add_right _ _

theorem digits_inj_same_len (a : Str) : ∀ b : Str, a.length = b.length →
    a.all isDigitC = true → b.all isDigitC = true →
    digitsToNat a = digitsToNat b → a = b := by
  induction a with
  | nil =>
    intro b hlen _ _ _
    cases b with
    | nil => rfl
    | cons d ds => simp at hlen
  | cons c cs ih =>
    intro b hlen ha hb hval
    cases b with
    | nil => simp at hlen
    | cons d ds =>
      rw [List.all_cons, Bool.and_eq_true] at ha hb
      have hlen' : cs.length = ds.length := by simpa using hlen
      rw [digitsToNat_cons, digitsToNat_cons, hlen'] at hval
      have hv1 : digitsToNat cs < 10 ^ ds.length := by
        rw [← hlen']
        exact digitsToNat_lt cs ha.2
      have hv2 : digitsToNat ds < 10 ^ ds.length := digitsToNat_lt ds hb.2
      have hdc := digit_bounds c ha.1
      have hdd := digit_bounds d hb.1
      have h48 : ('0' : Char).toNat = 48 := rfl
      have heq : c.toNat - '0'.toNat = d.toNat - '0'.toNat ∧
          digitsToNat cs = digitsToNat ds := by
        rcases Nat.lt_trichotomy (c.toNat - '0'.toNat) (d.toNat - '0'.toNat) with h | h | h
        · exfalso
          have hmul : (c.toNat - '0'.toNat + 1) * 10 ^ ds.length ≤
              (d.toNat - '0'.toNat) * 10 ^ ds.length :=
            Nat.mul_le_mul_right _ (by omega)
          have hsum : (c.toNat - '0'.toNat) * 10 ^ ds.length + 10 ^ ds.length =
              (c.toNat - '0'.toNat + 1) * 10 ^ ds.length := by ring
          omega
        · rw [h] at hval
          exact ⟨h, by omega⟩
        · exfalso
          have hmul : (d.toNat - '0'.toNat + 1) * 10 ^ ds.length ≤
              (c.toNat - '0'.toNat) * 10 ^ ds.length :=
            Nat.mul_le_mul_right _ (by omega)
          have hsum : (d.toNat - '0'.toNat) * 10 ^ ds.length + 10 ^ ds.length =
              (d.toNat - '0'.toNat + 1) * 10 ^ ds.length := by ring
          omega
      have hcd : c = d := char_eq_of_toNat_eq (by omega)
      rw [hcd, ih ds hlen' ha.2 hb.2 heq.2]

theorem canonical_len_le (a b : Str)
    (hna : a ≠ []) (ha : a.all isDigitC = true)
    (hnb : b ≠ []) (hb : b.all isDigitC = true)
    (hzb : 1 < b.length → b.headD ' ' ≠ '0')
    (h : digitsToNat a = digitsToNat b) : b.length ≤ a.length := by
  by_contra hlt
  push_neg at hlt
  cases b with
  | nil => exact hnb rfl
  | cons d ds =>
    rw [List.all_cons, Bool.and_eq_true] at hb
    rcases Nat.eq_zero_or_pos ds.length with hds | hds
    · have : a.length = 0 := by
        simp only [List.length_cons] at hlt
        omega
      exact hna (List.length_eq_zero.mp this)
    · have hd0 : d ≠ '0' := by
        have := hzb (by simp; omega)
        simpa using this
      have hge : 10 ^ ds.length ≤ digitsToNat (d :: ds) := digitsToNat_ge d ds hb.1 hd0
      have hlt2 : digitsToNat a < 10 ^ a.length := digitsToNat_lt a ha
      have hpow : 10 ^ a.length ≤ 10 ^ ds.length :=
        Nat.pow_le_pow_right (by omega) (by simp only [List.length_cons] at hlt; omega)
      omega

theorem parseUint_props (a : Str) (n : Nat) (h : parseUint a = some n) :
    a ≠ [] ∧ a.all isDigitC = true ∧ digitsToNat a = n := by
  unfold parseUint at h
  split at h
  · rename_i hc
    rw [Bool.and_eq_true] at hc
    refine ⟨?_, hc.2, by injection h⟩
    intro he
    rw [he] at hc
    simp at hc
  · cases h

theorem validIdent_digits_no_leading_zero (a : Str)
    (hv : validIdent a = true) (hd : a.all isDigitC = true) :
    1 < a.length → a.headD ' ' ≠ '0' := by
  intro hl h0
  unfold validIdent containsOnly at hv
  rw [if_pos hd] at hv
  rw [decide_eq_true hl] at hv
  have : (a.headD ' ' == '0') = true := beq_iff_eq.mpr h0
  rw [this] at hv
  simp at hv

theorem canonicalNum_inj (a b : Str)
    (hva : validIdent a = true) (hvb : validIdent b = true)
    (na nb : Nat) (hpa : parseUint a = some na) (hpb : parseUint b = some nb)
    (hval : na = nb) : a = b := by
  obtain ⟨hnea, hdga, hda⟩ := parseUint_props a na hpa
  obtain ⟨hneb, hdgb, hdb⟩ := parseUint_props b nb hpb
  have hv : digitsToNat a = digitsToNat b := by rw [hda, hdb, hval]
  have hza := validIdent_digits_no_leading_zero a hva hdga
  have hzb := validIdent_digits_no_leading_zero b hvb hdgb
  have h1 : b.length ≤ a.length := canonical_len_le a b hnea hdga hneb hdgb hzb hv
  have h2 : a.length ≤ b.length := canonical_len_le b a hneb hdgb hnea hdga hza hv.symm
  exact digits_inj_same_len a b (le_antisymm h2 h1) hdga hdgb hv

theorem identKey_inj (a b : Str) (hva : validIdent a = true) (hvb : validIdent b = true)
    (h : identKey a = identKey b) : a = b := by
  unfold identKey at h
  by_cases ha : a = [] <;> by_cases hb : b = []
  · rw [ha, hb]
  · rw [if_pos ha, if_neg hb] at h
    exfalso
    cases hpb : parseUint b <;> rw [hpb] at h <;> simp at h
  · rw [if_neg ha, if_pos hb] at h
    exfalso
    cases hpa : parseUint a <;> rw [hpa] at h <;> simp at h
  · rw [if_neg ha, if_neg hb] at h
    cases hpa : parseUint a <;> cases hpb : parseUint b <;> rw [hpa, hpb] at h
    · simpa using h
    · simp at h
    · simp at h
    · rename_i na nb
      have : na = nb := by simpa using h
      exact canonicalNum_inj a b hva hvb na nb hpa hpb this

theorem comparePrePart_neg_of_neg_of_le (a b c : Str)
    (hva : validIdent a = true) (hvb : validIdent b = true)
    (h1 : comparePrePart a b = -1) (h2 : comparePrePart b c ≤ 0) :
    comparePrePart a c = -1 := by
  have hle1 : identKey a ≤ identKey b := (comparePrePart_le_iff a b).mp (by omega)
  have hne1 : a ≠ b := by
    intro h
    rw [(comparePrePart_eq_zero_iff a b).mpr h] at h1
    omega
  have hlt1 : identKey a < identKey b :=
    lt_of_le_of_ne hle1 (fun hk => hne1 (identKey_inj a b hva hvb hk))
  have hle2 : identKey b ≤ identKey c := (comparePrePart_le_iff b c).mp h2
  have hlt : identKey a < identKey c := lt_of_lt_of_le hlt1 hle2
  have hlac : comparePrePart a c ≤ 0 := (comparePrePart_le_iff a c).mpr hlt.le
  have hnz : comparePrePart a c ≠ 0 := by
    intro h0
    have := (comparePrePart_eq_zero_iff a c).mp h0
    rw [this] at hlt
    exact lt_irrefl _ hlt
  rcases comparePrePart_cases a c with h | h | h <;> omega

theorem comparePrePart_neg_of_le_of_neg (a b c : Str)
    (hvb : validIdent b = true) (hvc : validIdent c = true)
    (h1 : comparePrePart a b ≤ 0) (h2 : comparePrePart b c = -1) :
    comparePrePart a c = -1 := by
  have hle1 : identKey a ≤ identKey b := (comparePrePart_le_iff a b).mp h1
  have hne2 : b ≠ c := by
    intro h
    rw [(comparePrePart_eq_zero_iff b c).mpr h] at h2
    omega
  have hlt2 : identKey b < identKey c :=
    lt_of_le_of_ne ((comparePrePart_le_iff b c).mp (by omega))
      (fun hk => hne2 (identKey_inj b c hvb hvc hk))
  have hlt : identKey a < identKey c := lt_of_le_of_lt hle1 hlt2
  have hlac : comparePrePart a c ≤ 0 := (comparePrePart_le_iff a c).mpr hlt.le
  have hnz : comparePrePart a c ≠ 0 := by
    intro h0
    have := (comparePrePart_eq_zero_iff a c).mp h0
    rw [this] at hlt
    exact lt_irrefl _ hlt
  rcases comparePrePart_cases a c with h | h | h <;> omega

theorem comparePrePart_flip (a b : Str)
    (hva : validIdent a = true) (hvb : validIdent b = true) :
    comparePrePart b a = -comparePrePart a b := by
  rcases comparePrePart_cases a b with h | h | h <;> rw [h]
  · -- a is strictly smaller: the reverse comparison is 1
    have hne : a ≠ b := by
      intro he
      rw [(comparePrePart_eq_zero_iff a b).mpr he] at h
      omega
    have hlt : identKey a < identKey b :=
      lt_of_le_of_ne ((comparePrePart_le_iff a b).mp (by omega))
        (fun hk => hne (identKey_inj a b hva hvb hk))
    have hnb : ¬ comparePrePart b a ≤ 0 := by
      intro hle
      exact absurd ((comparePrePart_le_iff b a).mp hle) (not_le.mpr hlt)
    rcases comparePrePart_cases b a with h2 | h2 | h2 <;> omega
  · rw [(comparePrePart_eq_zero_iff a b).mp h,
      comparePrePart_self]
    rfl
  · -- a is strictly greater: the reverse comparison is -1
    have hne : a ≠ b := by
      intro he
      rw [(comparePrePart_eq_zero_iff a b).mpr he] at h
      omega
    have hnab : ¬ comparePrePart a b ≤ 0 := by omega
    have hlt : identKey b < identKey a := by
      have := fun hle => hnab ((comparePrePart_le_iff a b).mpr hle)
      exact not_le.mp this
    have hble : comparePrePart b a ≤ 0 := (comparePrePart_le_iff b a).mpr hlt.le
    have hnz : comparePrePart b a ≠ 0 := by
      intro h0
      exact hne ((comparePrePart_eq_zero_iff b a).mp h0).symm
    rcases comparePrePart_cases b a with h2 | h2 | h2 <;> omega

theorem comparePrePart_nil_le (b : Str) : comparePrePart [] b ≤ 0 := by
  rw [comparePrePart_le_iff]
  have : identKey ([] : Str) = ⊥ := by simp [identKey]
  rw [this]
  exact bot_le

theorem comparePrePart_nil_ge (a : Str) : 0 ≤ comparePrePart a [] := by
  rcases comparePrePart_cases a [] with h | h | h
  · exfalso
    have hk : identKey a ≤ identKey [] := (comparePrePart_le_iff a []).mp (by omega)
    have hbot : identKey ([] : Str) = ⊥ := by simp [identKey]
    rw [hbot, le_bot_iff] at hk
    have ha : a = [] := by
      by_contra hne
      unfold identKey at hk
      rw [if_neg hne] at hk
      cases hpa : parseUint a <;> rw [hpa] at hk <;> simp at hk
    rw [ha, comparePrePart_self] at h
    omega
  · omega
  · omega

theorem comparePrePart_nil_flip (b : Str) :
    comparePrePart b [] = -comparePrePart [] b := by
  by_cases hb : b = []
  · subst hb
    rw [comparePrePart_self]
    rfl
  · have hbeq : (b == ([] : Str)) = false := by simpa using hb
    have hbeq' : (([] : Str) == b) = false := by
      cases b with
      | nil => exact absurd rfl hb
      | cons c cs => rfl
    have h1 : comparePrePart [] b = -1 := by
      unfold comparePrePart
      rw [hbeq']
      simp [hbeq]
    have h2 : comparePrePart b [] = 1 := by
      unfold comparePrePart
      rw [hbeq]
      simp [hbeq, hb]
    rw [h1, h2]
    rfl

theorem comparePreList_self (l : List Str) : comparePreList l l = 0 := by
  induction l with
  | nil => rfl
  | cons a as ih =>
    simp only [comparePreList, comparePrePart_self]
    simpa using ih

theorem comparePreNil_le (bs : List Str) : comparePreNil bs ≤ 0 := by
  induction bs with
  | nil => simp [comparePreNil]
  | cons b bs ih =>
    simp only [comparePreNil]
    by_cases h : comparePrePart [] b = 0
    · rw [if_neg (fun hne => hne h)]
      exact ih
    · rw [if_pos h]
      exact comparePrePart_nil_le b

theorem comparePreList_nil_left_le (bs : List Str) : comparePreList [] bs ≤ 0 :=
  comparePreNil_le bs

theorem comparePreList_nil_right_ge (as : List Str) : 0 ≤ comparePreList as [] := by
  induction as with
  | nil => simp [comparePreList, comparePreNil]
  | cons a as ih =>
    simp only [comparePreList]
    by_cases h : comparePrePart a [] = 0
    · rw [if_neg (fun hne => hne h)]
      exact ih
    · rw [if_pos h]
      exact comparePrePart_nil_ge a

theorem comparePreList_nil_right_eq_zero (as : List Str)
    (h : comparePreList as [] = 0) : ∀ x ∈ as, x = [] := by
  induction as with
  | nil => simp
  | cons a as ih =>
    simp only [comparePreList] at h
    by_cases hd : comparePrePart a [] = 0
    · have ha : a = [] := (comparePrePart_eq_zero_iff a []).mp hd
      rw [if_neg (fun hne => hne hd)] at h
      intro x hx
      rcases List.mem_cons.mp hx with h1 | h1
      · rw [h1, ha]
      · exact ih h x h1
    · rw [if_pos hd] at h
      exact absurd h hd

theorem comparePreList_le_of_all_nil (as : List Str) (h : ∀ x ∈ as, x = []) :
    ∀ cs : List Str, comparePreList as cs ≤ 0 := by
  induction as with
  | nil => exact comparePreList_nil_left_le
  | cons a as ih =>
    intro cs
    have ha : a = [] := h a (List.mem_cons_self _ _)
    have h' : ∀ x ∈ as, x = [] := fun x hx => h x (List.mem_cons_of_mem _ hx)
    cases cs with
    | nil =>
      simp only [comparePreList]
      by_cases hd : comparePrePart a [] = 0
      · rw [if_neg (fun hne => hne hd)]
        exact ih h' []
      · rw [ha, comparePrePart_self] at hd
        exact absurd rfl hd
    | cons c cs' =>
      simp only [comparePreList]
      by_cases hd : comparePrePart a c = 0
      · rw [if_neg (fun hne => hne hd)]
        exact ih h' cs'
      · rw [if_pos hd, ha]
        exact comparePrePart_nil_le c

theorem all_nil_of_comparePreList_le (as : List Str) :
    ∀ bs : List Str, (∀ x ∈ bs, x = []) → comparePreList as bs ≤ 0 →
    ∀ x ∈ as, x = [] := by
  induction as with
  | nil =>
    intro bs _ _
    simp
  | cons a as ih =>
    intro bs hbs h
    cases bs with
    | nil =>
      simp only [comparePreList] at h
      by_cases hd : comparePrePart a [] = 0
      · have ha := (comparePrePart_eq_zero_iff a []).mp hd
        rw [if_neg (fun hne => hne hd)] at h
        intro x hx
        rcases List.mem_cons.mp hx with h1 | h1
        · rw [h1, ha]
        · exact ih [] (by simp) h x h1
      · rw [if_pos hd] at h
        have := comparePrePart_nil_ge a
        omega
    | cons b bs' =>
      have hb : b = [] := hbs b (List.mem_cons_self _ _)
      simp only [comparePreList] at h
      rw [hb] at h
      by_cases hd : comparePrePart a [] = 0
      · have ha := (comparePrePart_eq_zero_iff a []).mp hd
        rw [if_neg (fun hne => hne hd)] at h
        intro x hx
        rcases List.mem_cons.mp hx with h1 | h1
        · rw [h1, ha]
        · exact ih bs' (fun y hy => hbs y (List.mem_cons_of_mem _ hy)) h x h1
      · rw [if_pos hd] at h
        have := comparePrePart_nil_ge a
        omega

theorem comparePreList_trans (as : List Str) :
    ∀ bs cs : List Str,
    (∀ x ∈ as, validIdent x = true) → (∀ x ∈ bs, validIdent x = true) →
    comparePreList as bs ≤ 0 → comparePreList bs cs ≤ 0 →
    comparePreList as cs ≤ 0 := by
  induction as with
  | nil =>
    intro bs cs _ _ _ _
    exact comparePreList_nil_left_le cs
  | cons a as ih =>
    intro bs cs hva hvb h1 h2
    cases bs with
    | nil =>
      have h0 : comparePreList (a :: as) [] = 0 :=
        le_antisymm h1 (comparePreList_nil_right_ge _)
      exact comparePreList_le_of_all_nil _ (comparePreList_nil_right_eq_zero _ h0) cs
    | cons b bs' =>
      cases cs with
      | nil =>
        have h0 : comparePreList (b :: bs') [] = 0 :=
          le_antisymm h2 (comparePreList_nil_right_ge _)
        have hbnil := comparePreList_nil_right_eq_zero _ h0
        have hanil := all_nil_of_comparePreList_le _ _ hbnil h1
        exact comparePreList_le_of_all_nil _ hanil []
      | cons c cs' =>
        have hva' : ∀ x ∈ as, validIdent x = true :=
          fun x hx => hva x (List.mem_cons_of_mem _ hx)
        have hvb' : ∀ x ∈ bs', validIdent x = true :=
          fun x hx => hvb x (List.mem_cons_of_mem _ hx)
        have hvaa : validIdent a = true := hva a (List.mem_cons_self _ _)
        have hvbb : validIdent b = true := hvb b (List.mem_cons_self _ _)
        simp only [comparePreList] at h1 h2 ⊢
        by_cases hd1 : comparePrePart a b = 0
        · have hab := (comparePrePart_eq_zero_iff a b).mp hd1
          rw [if_neg (fun hne => hne hd1)] at h1
          by_cases hd2 : comparePrePart b c = 0
          · have hbc := (comparePrePart_eq_zero_iff b c).mp hd2
            have hac : comparePrePart a c = 0 :=
              (comparePrePart_eq_zero_iff a c).mpr (hab.trans hbc)
            rw [if_neg (fun hne => hne hac)]
            rw [if_neg (fun hne => hne hd2)] at h2
            exact ih bs' cs' hva' hvb' h1 h2
          · rw [if_pos hd2] at h2
            have hbc : comparePrePart b c = -1 := by
              rcases comparePrePart_cases b c with h | h | h <;> omega
            have hac : comparePrePart a c = -1 := by
              rw [hab]
              exact hbc
            rw [if_pos (show comparePrePart a c ≠ 0 by omega)]
            omega
        · rw [if_pos hd1] at h1
          have hab : comparePrePart a b = -1 := by
            rcases comparePrePart_cases a b with h | h | h <;> omega
          by_cases hd2 : comparePrePart b c = 0
          · have hbc := (comparePrePart_eq_zero_iff b c).mp hd2
            have hac : comparePrePart a c = -1 := by
              rw [← hbc]
              exact hab
            rw [if_pos (show comparePrePart a c ≠ 0 by omega)]
            omega
          · rw [if_pos hd2] at h2
            have hbc : comparePrePart b c = -1 := by
              rcases comparePrePart_cases b c with h | h | h <;> omega
            have hac := comparePrePart_neg_of_neg_of_le a b c hvaa hvbb hab (by omega)
            rw [if_pos (show comparePrePart a c ≠ 0 by omega)]
            omega

theorem comparePreList_flip_nil (bs : List Str) :
    comparePreList bs [] = -comparePreList [] bs := by
  induction bs with
  | nil => rfl
  | cons b bs ih =>
    show (if comparePrePart b [] ≠ 0 then comparePrePart b [] else comparePreList bs []) =
      -(if comparePrePart [] b ≠ 0 then comparePrePart [] b else comparePreNil bs)
    have hflip := comparePrePart_nil_flip b
    by_cases hd : comparePrePart [] b = 0
    · rw [if_neg (show ¬ comparePrePart b [] ≠ 0 by omega),
        if_neg (fun hne => hne hd)]
      exact ih
    · rw [if_pos (show comparePrePart b [] ≠ 0 by omega), if_pos hd]
      omega

theorem comparePreList_flip (as : List Str) :
    ∀ bs : List Str, (∀ x ∈ as, validIdent x = true) →
    (∀ x ∈ bs, validIdent x = true) →
    comparePreList bs as = -comparePreList as bs := by
  induction as with
  | nil =>
    intro bs _ _
    exact comparePreList_flip_nil bs
  | cons a as ih =>
    intro bs hva hvb
    cases bs with
    | nil =>
      have := comparePreList_flip_nil (a :: as)
      omega
    | cons b bs' =>
      have hva' : ∀ x ∈ as, validIdent x = true :=
        fun x hx => hva x (List.mem_cons_of_mem _ hx)
      have hvb' : ∀ x ∈ bs', validIdent x = true :=
        fun x hx => hvb x (List.mem_cons_of_mem _ hx)
      have hflip := comparePrePart_flip a b
        (hva a (List.mem_cons_self _ _)) (hvb b (List.mem_cons_self _ _))
      simp only [comparePreList]
      by_cases hd : comparePrePart a b = 0
      · rw [if_neg (show ¬ comparePrePart b a ≠ 0 by omega),
          if_neg (fun hne => hne hd)]
        exact ih bs' hva' hvb'
      · rw [if_pos (show comparePrePart b a ≠ 0 by omega), if_pos hd]
        omega

/-- The numeric-core comparison chain of `Version.Compare`. -/
def numCmp (v o : SemVer) : Int :=
  let d := compareSegment v.major o.major
  if d ≠ 0 then d
  else
    let d := compareSegment v.minor o.minor
    if d ≠ 0 then d
    else compareSegment v.patch o.patch

/-- The prerelease block of `Version.Compare`. -/
def preBlockCmp (v o : SemVer) : Int :=
  if v.pre == [] && o.pre == [] then 0
  else if v.pre == [] then 1
  else if o.pre == [] then -1
  else comparePrerelease v.pre o.pre

theorem compareSemVer_eq (v o : SemVer) :
    compareSemVer v o = if numCmp v o ≠ 0 then numCmp v o else preBlockCmp v o := by
  unfold compareSemVer numCmp preBlockCmp
  dsimp only
  repeat' split
  all_goals rfl

theorem numCmp_self (v : SemVer) : numCmp v v = 0 := by
  unfold numCmp compareSegment
  dsimp only
  repeat' split
  all_goals omega

theorem numCmp_flip (v o : SemVer) : numCmp o v = -numCmp v o := by
  unfold numCmp compareSegment
  dsimp only
  repeat' split
  all_goals omega

theorem numCmp_le_char (v o : SemVer) :
    numCmp v o ≤ 0 ↔
      (v.major < o.major ∨ (v.major = o.major ∧
        (v.minor < o.minor ∨ (v.minor = o.minor ∧ v.patch ≤ o.patch)))) := by
  unfold numCmp compareSegment
  dsimp only
  repeat' split
  all_goals omega

theorem numCmp_zero_char (v o : SemVer) :
    numCmp v o = 0 ↔ (v.major = o.major ∧ v.minor = o.minor ∧ v.patch = o.patch) := by
  unfold numCmp compareSegment
  dsimp only
  repeat' split
  all_goals omega

theorem numCmp_trans' (u v w : SemVer) (h1 : numCmp u v ≤ 0) (h2 : numCmp v w ≤ 0) :
    numCmp u w ≤ 0 ∧ (numCmp u w = 0 → numCmp u v = 0 ∧ numCmp v w = 0) := by
  rw [numCmp_le_char] at h1
  rw [numCmp_le_char] at h2
  rw [numCmp_le_char, numCmp_zero_char, numCmp_zero_char, numCmp_zero_char]
  omega

theorem numCmp_congr_left (u v w : SemVer) (h : numCmp u v = 0) :
    numCmp u w = numCmp v w := by
  obtain ⟨e1, e2, e3⟩ := (numCmp_zero_char u v).mp h
  unfold numCmp compareSegment
  rw [e1, e2, e3]

theorem numCmp_congr_right (u v w : SemVer) (h : numCmp v w = 0) :
    numCmp u w = numCmp u v := by
  obtain ⟨e1, e2, e3⟩ := (numCmp_zero_char v w).mp h
  unfold numCmp compareSegment
  rw [← e1, ← e2, ← e3]

/-- The prerelease string of a version produced by the strict parser is
valid. -/
def ValidPre (v : SemVer) : Prop := validatePrerelease v.pre = true

theorem validatePrerelease_mem (p : Str) (h : validatePrerelease p = true) :
    ∀ x ∈ splitOnC '.' p, validIdent x = true := by
  unfold validatePrerelease at h
  intro x hx
  exact List.all_eq_true.mp h x hx

theorem comparePrerelease_self (p : Str) : comparePrerelease p p = 0 :=
  comparePreList_self _

theorem comparePrerelease_flip (p q : Str)
    (hp : validatePrerelease p = true) (hq : validatePrerelease q = true) :
    comparePrerelease q p = -comparePrerelease p q :=
  comparePreList_flip _ _ (validatePrerelease_mem p hp) (validatePrerelease_mem q hq)

theorem comparePrerelease_trans (p q r : Str)
    (hp : validatePrerelease p = true) (hq : validatePrerelease q = true)
    (h1 : comparePrerelease p q ≤ 0) (h2 : comparePrerelease q r ≤ 0) :
    comparePrerelease p r ≤ 0 :=
  comparePreList_trans _ _ _ (validatePrerelease_mem p hp) (validatePrerelease_mem q hq)
    h1 h2

theorem preBlockCmp_self (v : SemVer) : preBlockCmp v v = 0 := by
  by_cases h : (v.pre == []) = true
  · simp [preBlockCmp, h]
  · simp only [preBlockCmp, h]
    simp [comparePrerelease_self]

theorem preBlockCmp_flip (v o : SemVer) (hv : ValidPre v) (ho : ValidPre o) :
    preBlockCmp o v = -preBlockCmp v o := by
  unfold preBlockCmp
  by_cases h1 : (v.pre == []) = true
  · by_cases h2 : (o.pre == []) = true
    · simp [h1, h2]
    · simp [h1, h2]
  · by_cases h2 : (o.pre == []) = true
    · simp [h1, h2]
    · simp only [h1, h2, Bool.false_and, Bool.and_false, if_false]
      exact comparePrerelease_flip v.pre o.pre hv ho

theorem preBlockCmp_trans (u v w : SemVer)
    (hu : ValidPre u) (hv : ValidPre v)
    (h1 : preBlockCmp u v ≤ 0) (h2 : preBlockCmp v w ≤ 0) :
    preBlockCmp u w ≤ 0 := by
  unfold preBlockCmp at h1 h2 ⊢
  by_cases hu0 : (u.pre == []) = true
  · by_cases hv0 : (v.pre == []) = true
    · by_cases hw0 : (w.pre == []) = true
      · simp [hu0, hv0, hw0]
      · exfalso
        simp [hv0, hw0] at h2
    · exfalso
      simp [hu0, hv0] at h1
  · by_cases hw0 : (w.pre == []) = true
    · simp [hu0, hw0]
    · by_cases hv0 : (v.pre == []) = true
      · exfalso
        simp [hv0, hw0] at h2
      · simp only [hu0, hv0, hw0, Bool.false_and, Bool.and_false, if_false] at h1 h2 ⊢
        exact comparePrerelease_trans u.pre v.pre w.pre hu hv h1 h2

theorem compareSemVer_self (v : SemVer) : compareSemVer v v = 0 := by
  rw [compareSemVer_eq, numCmp_self]
  simp [preBlockCmp_self]

theorem compareSemVer_flip (v o : SemVer) (hv : ValidPre v) (ho : ValidPre o) :
    compareSemVer o v = -compareSemVer v o := by
  rw [compareSemVer_eq, compareSemVer_eq]
  have hf := numCmp_flip v o
  by_cases h : numCmp v o = 0
  · rw [if_neg (fun hh => hh (by rw [hf, h]; rfl)), if_neg (fun hh => hh h)]
    exact preBlockCmp_flip v o hv ho
  · rw [if_pos (show numCmp o v ≠ 0 by rw [hf]; omega), if_pos h]
    omega

theorem compareSemVer_trans (u v w : SemVer)
    (hu : ValidPre u) (hv : ValidPre v) (hw : ValidPre w)
    (h1 : compareSemVer u v ≤ 0) (h2 : compareSemVer v w ≤ 0) :
    compareSemVer u w ≤ 0 := by
  rw [compareSemVer_eq] at h1 h2 ⊢
  by_cases n1 : numCmp u v = 0 <;> by_cases n2 : numCmp v w = 0
  · rw [if_neg (fun h => h n1)] at h1
    rw [if_neg (fun h => h n2)] at h2
    have huw : numCmp u w = 0 := by
      rw [numCmp_congr_left u v w n1, n2]
    rw [if_neg (fun h => h huw)]
    exact preBlockCmp_trans u v w hu hv h1 h2
  · rw [if_pos n2] at h2
    have huw : numCmp u w = numCmp v w := numCmp_congr_left u v w n1
    rw [if_pos (show numCmp u w ≠ 0 by rw [huw]; exact n2), huw]
    exact h2
  · rw [if_pos n1] at h1
    have huw : numCmp u w = numCmp u v := numCmp_congr_right u v w n2
    rw [if_pos (show numCmp u w ≠ 0 by rw [huw]; exact n1), huw]
    exact h1
  · rw [if_pos n1] at h1
    rw [if_pos n2] at h2
    obtain ⟨hle, hz⟩ := numCmp_trans' u v w h1 h2
    rw [if_pos (fun h0 => n1 (hz h0).1)]
    exact hle

theorem final_match_pre (oa ob oc : Option Nat) (pre md : Str) (v : SemVer)
    (h : (match oa, ob, oc with
          | some a, some b, some c => some (⟨a, b, c, pre, md⟩ : SemVer)
          | _, _, _ => none) = some v) : v.pre = pre := by
  cases oa with
  | none => simp at h
  | some a =>
    cases ob with
    | none => simp at h
    | some b =>
      cases oc with
      | none => simp at h
      | some c =>
        cases h
        rfl

theorem strictNewVersion_validPre (s : Str) (v : SemVer)
    (h : strictNewVersion s = some v) : validatePrerelease v.pre = true := by
  unfold strictNewVersion at h
  split at h
  next x p0 p1 p2 heq =>
    dsimp only at h
    cases hplus : containsC '+' p2 with
    | true =>
      rw [hplus] at h
      simp only [eq_self_iff_true, if_true, Bool.true_and] at h
      cases hdash : containsC '-' ((breakAtC '+' p2).getD (p2, [])).1 with
      | true =>
        rw [hdash] at h
        simp only [eq_self_iff_true, if_true, Bool.true_and] at h
        split at h
        next => simp at h
        next hmd =>
          split at h
          next => simp at h
          next hpre =>
            rw [final_match_pre _ _ _ _ _ v h]
            simpa using hpre
      | false =>
        rw [hdash] at h
        simp only [Bool.false_eq_true, if_false, Bool.false_and] at h
        split at h
        next => simp at h
        next hmd =>
          rw [final_match_pre _ _ _ _ _ v h]
          decide
    | false =>
      rw [hplus] at h
      simp only [Bool.false_eq_true, if_false, Bool.false_and] at h
      cases hdash : containsC '-' p2 with
      | true =>
        rw [hdash] at h
        simp only [eq_self_iff_true, if_true, Bool.true_and] at h
        split at h
        next => simp at h
        next hpre =>
          rw [final_match_pre _ _ _ _ _ v h]
          simpa using hpre
      | false =>
        rw [hdash] at h
        simp only [Bool.false_eq_true, if_false, Bool.false_and] at h
        rw [final_match_pre _ _ _ _ _ v h]
        decide
  next => simp at h

theorem parseVersion_validPre (t : Str) (v : SemVer)
    (h : parseVersion t = some v) : validatePrerelease v.pre = true :=
  strictNewVersion_validPre _ v h

theorem insertDescBySemVer_spec (x : Str × SemVer) (ys : List (Str × SemVer)) :
    ∀ z, z ∈ insertDescBySemVer x ys ↔ (z = x ∨ z ∈ ys) := by
  induction ys with
  | nil =>
    intro z
    simp [insertDescBySemVer]
  | cons y ys ih =>
    intro z
    unfold insertDescBySemVer
    split
    · simp only [List.mem_cons]
    · simp only [List.mem_cons, ih z]
      tauto

/-- The head of the descending sort is a member of the input and dominates
every element of the input in `compareSemVer` order (valid prerelease
strings assumed, as guaranteed by the strict parser). -/
theorem sortDescBySemVer_spec (l : List (Str × SemVer))
    (hval : ∀ x ∈ l, validatePrerelease x.2.pre = true) :
    (sortDescBySemVer l = [] ∧ l = []) ∨
    (∃ hd tl, sortDescBySemVer l = hd :: tl ∧ hd ∈ l ∧
      ∀ x ∈ l, compareSemVer x.2 hd.2 ≤ 0) := by
  induction l with
  | nil => exact Or.inl ⟨rfl, rfl⟩
  | cons x xs ih =>
    have hvx : validatePrerelease x.2.pre = true := hval x (List.mem_cons_self x xs)
    have hvxs : ∀ y ∈ xs, validatePrerelease y.2.pre = true :=
      fun y hy => hval y (List.mem_cons_of_mem x hy)
    rcases ih hvxs with ⟨hs, hl⟩ | ⟨hd, tl, hs, hmem, hmax⟩
    · subst hl
      refine Or.inr ⟨x, [], rfl, List.mem_cons_self x [], ?_⟩
      intro y hy
      have hyx : y = x := by simpa using hy
      subst hyx
      have := compareSemVer_self y.2
      omega
    · have hsort : sortDescBySemVer (x :: xs) =
        insertDescBySemVer x (sortDescBySemVer xs) := rfl
      rw [hs] at hsort
      have hvhd : validatePrerelease hd.2.pre = true := hvxs hd hmem
      by_cases hge : compareSemVer x.2 hd.2 ≥ 0
      · have hins : insertDescBySemVer x (hd :: tl) = x :: hd :: tl := by
          unfold insertDescBySemVer
          rw [if_pos hge]
        refine Or.inr ⟨x, hd :: tl, by rw [hsort, hins], List.mem_cons_self x xs, ?_⟩
        intro y hy
        rcases List.mem_cons.mp hy with rfl | hyxs
        · have := compareSemVer_self y.2
          omega
        · have hvy := hvxs y hyxs
          have hflip : compareSemVer hd.2 x.2 = -compareSemVer x.2 hd.2 :=
            compareSemVer_flip x.2 hd.2 hvx hvhd
          have h1 : compareSemVer y.2 hd.2 ≤ 0 := hmax y hyxs
          have h2 : compareSemVer hd.2 x.2 ≤ 0 := by omega
          exact compareSemVer_trans y.2 hd.2 x.2 hvy hvhd hvx h1 h2
      · have hins : insertDescBySemVer x (hd :: tl) = hd :: insertDescBySemVer x tl := by
          rw [insertDescBySemVer]
          rw [if_neg hge]
        refine Or.inr ⟨hd, insertDescBySemVer x tl, by rw [hsort, hins],
          List.mem_cons_of_mem x hmem, ?_⟩
        intro y hy
        rcases List.mem_cons.mp hy with rfl | hyxs
        · omega
        · exact hmax y hyxs

/-- The filtered (tag, version) pairs of `getTagBySemver`. -/
def semverMatching (tags : List Str) (con : Constraint) : List (Str × SemVer) :=
  tags.filterMap (fun t =>
    match parseVersion t with
    | none => none
    | some v => if checkConstraint con v then some (t, v) else none)

theorem semverMatching_mem (tags : List Str) (con : Constraint)
    (x : Str × SemVer) (hx : x ∈ semverMatching tags con) :
    x.1 ∈ tags ∧ parseVersion x.1 = some x.2 ∧ checkConstraint con x.2 = true := by
  obtain ⟨t, ht, hf⟩ := List.mem_filterMap.mp hx
  revert hf
  cases hp : parseVersion t with
  | none => intro hf; simp at hf
  | some v =>
    intro hf
    dsimp only at hf
    by_cases hc : checkConstraint con v = true
    · rw [if_pos hc] at hf
      cases hf
      exact ⟨ht, hp, hc⟩
    · rw [if_neg hc] at hf
      simp at hf

theorem semverMatching_mem_of (tags : List Str) (con : Constraint)
    (t : Str) (v : SemVer) (ht : t ∈ tags) (hp : parseVersion t = some v)
    (hc : checkConstraint con v = true) : (t, v) ∈ semverMatching tags con := by
  refine List.mem_filterMap.mpr ⟨t, ht, ?_⟩
  rw [hp]
  dsimp only
  rw [if_pos hc]

theorem getTagBySemver_eq_match (tags : List Str) (con : Constraint) :
    getTagBySemver tags con =
      match sortDescBySemVer (semverMatching tags con) with
      | [] => Except.error ("no match found for semver".toList)
      | (t, _) :: _ => Except.ok t := rfl

/-- Characterization of a successful `getTagBySemver`: the returned tag is
a member of the input that parses, matches the constraint, and whose
version dominates every other parsing-and-matching tag in semver order. -/
theorem getTagBySemver_ok_spec (tags : List Str) (con : Constraint) (t : Str)
    (h : getTagBySemver tags con = Except.ok t) :
    ∃ v, t ∈ tags ∧ parseVersion t = some v ∧ checkConstraint con v = true ∧
      ∀ t' ∈ tags, ∀ v', parseVersion t' = some v' →
        checkConstraint con v' = true → compareSemVer v' v ≤ 0 := by
  have hval : ∀ x ∈ semverMatching tags con, validatePrerelease x.2.pre = true :=
    fun x hx => parseVersion_validPre x.1 x.2 (semverMatching_mem tags con x hx).2.1
  rw [getTagBySemver_eq_match] at h
  rcases sortDescBySemVer_spec (semverMatching tags con) hval with ⟨hs, _⟩ |
    ⟨hd, tl, hs, hmem, hmax⟩
  · rw [hs] at h
    simp at h
  · rw [hs] at h
    have hth : t = hd.1 := by
      cases hd
      simpa using h.symm
    obtain ⟨h1, h2, h3⟩ := semverMatching_mem tags con hd hmem
    refine ⟨hd.2, by rw [hth]; exact h1, by rw [hth]; exact h2, h3, ?_⟩
    intro t' ht' v' hp' hc'
    exact hmax (t', v') (semverMatching_mem_of tags con t' v' ht' hp' hc')

/-- `getTagBySemver` errors exactly when no tag both parses and matches. -/
theorem getTagBySemver_error_iff (tags : List Str) (con : Constraint) :
    getTagBySemver tags con = Except.error ("no match found for semver".toList) ↔
      ∀ t ∈ tags, ∀ v, parseVersion t = some v → checkConstraint con v = false := by
  have hval : ∀ x ∈ semverMatching tags con, validatePrerelease x.2.pre = true :=
    fun x hx => parseVersion_validPre x.1 x.2 (semverMatching_mem tags con x hx).2.1
  rw [getTagBySemver_eq_match]
  constructor
  · intro h t ht v hp
    by_contra hc
    rw [Bool.not_eq_false] at hc
    have hmem := semverMatching_mem_of tags con t v ht hp hc
    rcases sortDescBySemVer_spec (semverMatching tags con) hval with ⟨hs, hl⟩ |
      ⟨hd, tl, hs, _, _⟩
    · rw [hl] at hmem
      simp at hmem
    · rw [hs] at h
      cases hd
      simp at h
  · intro hnone
    have hempty : semverMatching tags con = [] := by
      refine List.filterMap_eq_nil_iff.mpr ?_
      intro t ht
      cases hp : parseVersion t with
      | none => rfl
      | some v =>
        dsimp only
        rw [if_neg ?_]
        rw [hnone t ht v hp]
        simp
    rw [hempty]
    rfl

/-! ## Claims C4 and C5: semVer reference resolution -/

/-- From the spec's words for claim C4: the subset of the tag list that
parses as a semantic version and matches the constraint. -/
def semverMatchingTags (tags : List Str) (con : Constraint) : List Str :=
  tags.filter (fun t =>
    match parseVersion t with
    | none => false
    | some v => checkConstraint con v)

/-- From the spec's words for claim C4: the lexicographic maximum of a
list of tags, in Go's byte-wise string order. -/
def lexMaxTag : List Str → Option Str
  | [] => none
  | t :: ts => some (ts.foldl (fun acc u => if goStrLt acc u then u else acc) t)

/-- Tag list of the C4 counterexample. -/
def cexTags : List Str := ["9.0.0".toList, "10.0.0".toList]

/-- Constraint of the C4 counterexample: `>=0.0.0`, matched by both tags. -/
def cexCon : Constraint := [[⟨CmpOp.ge, ⟨0, 0, 0, [], []⟩⟩]]

/-- Claim C4 counterexample: with tags `9.0.0` and `10.0.0` and the
match-all constraint `>=0.0.0`, both tags parse and match; semVer
resolution returns `10.0.0`, but the lexicographic maximum of the matching
subset is `9.0.0` (in byte-wise string order `"10.0.0" < "9.0.0"` because
`'1' < '9'`), so the chosen tag is not the lexicographic maximum. -/
theorem semverTagIsNotLexicographicMax :
    getTagBySemver cexTags cexCon = Except.ok "10.0.0".toList ∧
    lexMaxTag (semverMatchingTags cexTags cexCon) = some "9.0.0".toList ∧
    ("10.0.0".toList : Str) ≠ "9.0.0".toList := by
  refine ⟨rfl, rfl, by decide⟩

/-- Claim C4 (corrected): the tag chosen by semVer reference resolution is
a semantic-version maximum — not the lexicographic maximum — of the subset
of tags that parse and match: the result parses, matches the constraint,
and the version of every other parsing-and-matching tag compares `≤ 0`
against it in the library's semver order. -/
theorem semverTagIsSemverMax (tags : List Str) (con : Constraint) (t : Str)
    (h : getTagBySemver tags con = Except.ok t) :
    ∃ v, t ∈ tags ∧ parseVersion t = some v ∧ checkConstraint con v = true ∧
      ∀ t' ∈ tags, ∀ v', parseVersion t' = some v' →
        checkConstraint con v' = true → compareSemVer v' v ≤ 0 :=
  getTagBySemver_ok_spec tags con t h

/-- Tag list of the C4 witness. -/
def c4wTags : List Str := ["v4.0.1".toList, "4.10.0".toList, "4.2.0".toList]

/-- Constraint of the C4 witness: `>=4.0.0`. -/
def c4wCon : Constraint := [[⟨CmpOp.ge, ⟨4, 0, 0, [], []⟩⟩]]

theorem semverTagIsSemverMax_witness :
    ∃ v, "4.10.0".toList ∈ c4wTags ∧ parseVersion "4.10.0".toList = some v ∧
      checkConstraint c4wCon v = true ∧
      ∀ t' ∈ c4wTags, ∀ v', parseVersion t' = some v' →
        checkConstraint c4wCon v' = true → compareSemVer v' v ≤ 0 :=
  semverTagIsSemverMax c4wTags c4wCon ("4.10.0".toList) rfl

/-- Claim C5: semVer resolution lists the tags, parses each as a semantic
version with parse failures silently skipped, keeps those matching the
constraint, sorts the matches in descending semver order and returns the
first: an `ok` answer is a matching tag whose version dominates every
parsing-and-matching tag, and the error answer occurs exactly when no tag
both parses and matches. -/
theorem semverResolutionSteps (tags : List Str) (con : Constraint) :
    (getTagBySemver tags con = Except.error ("no match found for semver".toList) ↔
      ∀ t ∈ tags, ∀ v, parseVersion t = some v → checkConstraint con v = false) ∧
    (∀ t, getTagBySemver tags con = Except.ok t →
      t ∈ tags ∧ ∃ v, parseVersion t = some v ∧ checkConstraint con v = true ∧
        ∀ t' ∈ tags, ∀ v', parseVersion t' = some v' →
          checkConstraint con v' = true → compareSemVer v' v ≤ 0) := by
  refine ⟨getTagBySemver_error_iff tags con, ?_⟩
  intro t h
  obtain ⟨v, h1, h2, h3, h4⟩ := getTagBySemver_ok_spec tags con t h
  exact ⟨h1, v, h2, h3, h4⟩

/-- Tag list of the C5 witness: one plain match, one junk tag that fails
strict parsing, one prerelease tag excluded by the constraint rule, and
the `v`-prefixed winner. -/
def c5wTags : List Str :=
  ["6.1.0".toList, "junk".toList, "6.2.0-rc.1".toList, "v6.2.0".toList]

/-- Constraint of the C5 witness: `>=6.0.0`. -/
def c5wCon : Constraint := [[⟨CmpOp.ge, ⟨6, 0, 0, [], []⟩⟩]]

theorem semverResolutionSteps_witness :
    "v6.2.0".toList ∈ c5wTags ∧ ∃ v, parseVersion ("v6.2.0".toList) = some v ∧
      checkConstraint c5wCon v = true ∧
      ∀ t' ∈ c5wTags, ∀ v', parseVersion t' = some v' →
        checkConstraint c5wCon v' = true → compareSemVer v' v ≤ 0 :=
  (semverResolutionSteps c5wTags c5wCon).2 ("v6.2.0".toList) rfl

end SrcCtl
